import Mathlib

/-!
SSH honeypot: fake shell engine and global-request dispatcher

A shallow embedding of `commands.go`, `data.go` and `request.go`.

* Go strings are Lean strings, that is, sequences of Unicode code points (valid UTF-8 text).
* The three I/O objects a `commandContext` refers to (the line source `stdin` and the sinks
  `stdout` and `stderr`) are shared by every copy of a context, so they live in one `World`
  that is threaded through every operation.  The environment may answer every call as it
  likes: the k-th `ReadLine` call returns `input k`, the k-th `Write` call on a sink fails
  when the sink's oracle says so.  The world records the data of every `Write` call.
* A run-time panic of the Go program is the outcome `fault`.
* Loops and recursion are bounded by a fuel argument; `none` means the fuel ran out.
* Request handling passes the connection context and an `Env` explicitly; the environment holds
  the counters, the warning logger, the `Reply` calls with the oracle of their failures, and
  the pseudo-random source.
-/

namespace SSHHoneypot

/-! ## The environment -/

/-- Go `error` value, identified by its message; `Option GoError` is a possibly nil error. -/
abbrev GoError := String

/-- Answer of one `ReadLine` call: a line (without its line end), or an error. -/
inductive ReadResult where
  | line (s : String)
  | fail (e : GoError)
deriving DecidableEq, Repr

/-- State of the I/O objects shared by all copies of a command context. -/
structure World where
  /-- Result of the k-th `ReadLine` call on `stdin` (k counted from 0). -/
  input : Nat → ReadResult
  /-- Number of `ReadLine` calls made so far. -/
  reads : Nat
  /-- Error returned by the k-th `Write` call on `stdout`, if it fails. -/
  outFail : Nat → Option GoError
  /-- Data of the `Write` calls made on `stdout` so far, oldest first. -/
  out : List String
  /-- Error returned by the k-th `Write` call on `stderr`, if it fails. -/
  errFail : Nat → Option GoError
  /-- Data of the `Write` calls made on `stderr` so far, oldest first. -/
  err : List String
  /-- Formatted wall-clock time seen by the k-th `time.Now` call. -/
  clock : Nat → String
  /-- Number of `time.Now` calls made so far. -/
  ticks : Nat

/-- Method `stdin.ReadLine()`: the next answer of the line source. -/
def World.readLine (w : World) : ReadResult × World :=
  (w.input w.reads, { w with reads := w.reads + 1 })

/-- One `Write` call on `stdout` (as made by `fmt.Fprint`, `Fprintln`, `Fprintf`). -/
def World.writeOut (w : World) (s : String) : Option GoError × World :=
  (w.outFail w.out.length, { w with out := w.out ++ [s] })

/-- One `Write` call on `stderr`. -/
def World.writeErr (w : World) (s : String) : Option GoError × World :=
  (w.errFail w.err.length, { w with err := w.err ++ [s] })

/-- Call `time.Now().Format(...)`: the current time, already formatted. -/
def World.now (w : World) : String × World :=
  (w.clock w.ticks, { w with ticks := w.ticks + 1 })

/-- Struct `commandContext` without its three I/O references, which live in the `World`. -/
structure commandContext where
  args : List String
  pty : Bool
  user : String
deriving DecidableEq, Repr

/-- What a call does: it returns `(status, err)` or the program panics. -/
inductive Outcome where
  | ret (status : Nat) (err : Option GoError)
  | fault (msg : String)
deriving DecidableEq, Repr

/-- Result of a fuel-bounded run: `none` when the fuel ran out. -/
abbrev Run := Option (Outcome × World)

/-! ## Go standard library -/

/-- Go `unicode.IsSpace`: the code points with the Unicode White_Space property. -/
def unicode.IsSpace (c : Char) : Bool :=
  let r := c.toNat
  (0x09 ≤ r && r ≤ 0x0D) || r == 0x20 || r == 0x85 || r == 0xA0 || r == 0x1680 ||
  (0x2000 ≤ r && r ≤ 0x200A) || r == 0x2028 || r == 0x2029 || r == 0x202F ||
  r == 0x205F || r == 0x3000

/-- Worker of `strings.Fields`: `cur` is the field being collected. -/
def strings.fieldsFrom : List Char → List Char → List String
  | [], cur => if cur.isEmpty then [] else [String.mk cur]
  | c :: cs, cur =>
    if unicode.IsSpace c then
      if cur.isEmpty then strings.fieldsFrom cs [] else String.mk cur :: strings.fieldsFrom cs []
    else strings.fieldsFrom cs (cur ++ [c])

/-- Go `strings.Fields`: the maximal runs of non-space characters, in order. -/
def strings.Fields (s : String) : List String :=
  strings.fieldsFrom s.data []

/-- Go `strings.Join`: the first element, then separator and element for each further one. -/
def strings.Join : List String → String → String
  | [], _ => ""
  | [a], _ => a
  | a :: rest, sep => rest.foldl (fun b s => b ++ sep ++ s) a

/-- Largest `uint64`. -/
def maxUint64 : Nat := 2 ^ 64 - 1

/-- Error of `strconv.ParseUint` for malformed input. -/
def strconv.ErrBadDigits : GoError := "invalid syntax"

/-- Error of `strconv.ParseUint` for a value that does not fit. -/
def strconv.ErrRange : GoError := "value out of range"

/-- Digit loop of `strconv.ParseUint` for base 10: `n` is the `uint64` accumulator. -/
def strconv.parseUintLoop (maxVal : Nat) : List Char → Nat → Except GoError Nat
  | [], n => .ok n
  | c :: cs, n =>
    if '0' ≤ c ∧ c ≤ '9' then
      let d := c.toNat - '0'.toNat
      let cutoff := maxUint64 / 10 + 1
      if n ≥ cutoff then .error strconv.ErrRange
      else
        let n10 := (n * 10) % 2 ^ 64
        let n1 := (n10 + d) % 2 ^ 64
        if n1 < n10 ∨ n1 > maxVal then .error strconv.ErrRange
        else strconv.parseUintLoop maxVal cs n1
    else .error strconv.ErrBadDigits

/-- Go `strconv.ParseUint(s, 10, bitSize)` for `0 < bitSize ≤ 64`. -/
def strconv.ParseUint (s : String) (bitSize : Nat) : Except GoError Nat :=
  if s = "" then .error strconv.ErrBadDigits
  else strconv.parseUintLoop (2 ^ bitSize - 1) s.data 0

/-- Go `fmt` verb `%6d`: the decimal numeral, padded with spaces on the left to width 6. -/
def fmt.d6 (n : Nat) : String :=
  let s := toString n
  String.mk (List.replicate (6 - s.length) ' ') ++ s

/-! ## data.go -/

/-- Constant `CpuInfo` of data.go. -/
def CpuInfo : String :=
  "processor   : 0\n" ++
  "vendor_id   : GenuineIntel\n" ++
  "cpu family  : 6\n" ++
  "model       : 85\n" ++
  "model name  : Intel(R) Xeon(R) Platinum 8175M CPU @ 2.50GHz\n" ++
  "stepping    : 4\n" ++
  "microcode   : 0x2007006\n" ++
  "cpu MHz     : 2499.998\n" ++
  "cache size  : 33792 KB\n" ++
  "physical id : 0\n" ++
  "siblings    : 2\n" ++
  "core id     : 0\n" ++
  "cpu cores   : 1\n" ++
  "apicid      : 0\n" ++
  "initial apicid  : 0\n" ++
  "fpu     : yes\n" ++
  "fpu_exception   : yes\n" ++
  "cpuid level : 13\n" ++
  "wp      : yes\n" ++
  "flags       : fpu vme de pse tsc msr pae mce cx8 apic sep mtrr pge mca cmov pat pse36 clflush mmx fxsr sse sse2 ss ht syscall nx pdpe1gb rdtscp lm constant_tsc rep_good nopl xtopology nonstop_tsc cpuid tsc_known_freq pni pclmulqdq ssse3 fma cx16 pcid sse4_1 sse4_2 x2apic movbe popcnt tsc_deadline_timer aes xsave avx f16c rdrand hypervisor lahf_lm abm 3dnowprefetch invpcid_single pti fsgsbase tsc_adjust bmi1 avx2 smep bmi2 erms invpcid mpx avx512f avx512dq rdseed adx smap clflushopt clwb avx512cd avx512bw avx512vl xsaveopt xsavec xgetbv1 xsaves ida arat pku ospke\n" ++
  "bugs        : cpu_meltdown spectre_v1 spectre_v2 spec_store_bypass l1tf mds swapgs itlb_multihit mmio_stale_data retbleed gds\n" ++
  "bogomips    : 4999.99\n" ++
  "clflush size    : 64\n" ++
  "cache_alignment : 64\n" ++
  "address sizes   : 46 bits physical, 48 bits virtual\n" ++
  "power management:\n" ++
  "\n" ++
  "processor   : 1\n" ++
  "vendor_id   : GenuineIntel\n" ++
  "cpu family  : 6\n" ++
  "model       : 85\n" ++
  "model name  : Intel(R) Xeon(R) Platinum 8175M CPU @ 2.50GHz\n" ++
  "stepping    : 4\n" ++
  "microcode   : 0x2007006\n" ++
  "cpu MHz     : 2499.998\n" ++
  "cache size  : 33792 KB\n" ++
  "physical id : 0\n" ++
  "siblings    : 2\n" ++
  "core id     : 0\n" ++
  "cpu cores   : 1\n" ++
  "apicid      : 1\n" ++
  "initial apicid  : 1\n" ++
  "fpu     : yes\n" ++
  "fpu_exception   : yes\n" ++
  "cpuid level : 13\n" ++
  "wp      : yes\n" ++
  "flags       : fpu vme de pse tsc msr pae mce cx8 apic sep mtrr pge mca cmov pat pse36 clflush mmx fxsr sse sse2 ss ht syscall nx pdpe1gb rdtscp lm constant_tsc rep_good nopl xtopology nonstop_tsc cpuid tsc_known_freq pni pclmulqdq ssse3 fma cx16 pcid sse4_1 sse4_2 x2apic movbe popcnt tsc_deadline_timer aes xsave avx f16c rdrand hypervisor lahf_lm abm 3dnowprefetch invpcid_single pti fsgsbase tsc_adjust bmi1 avx2 smep bmi2 erms invpcid mpx avx512f avx512dq rdseed adx smap clflushopt clwb avx512cd avx512bw avx512vl xsaveopt xsavec xgetbv1 xsaves ida arat pku ospke\n" ++
  "bugs        : cpu_meltdown spectre_v1 spectre_v2 spec_store_bypass l1tf mds swapgs itlb_multihit mmio_stale_data retbleed gds\n" ++
  "bogomips    : 4999.99\n" ++
  "clflush size    : 64\n" ++
  "cache_alignment : 64\n" ++
  "address sizes   : 46 bits physical, 48 bits virtual\n" ++
  "power management:\n"

/-- Constant `IfconfigOutput` of data.go. -/
def IfconfigOutput : String :=
  "lo: flags=73<UP,LOOPBACK,RUNNING>  mtu 65536\n" ++
  "\tinet 127.0.0.1  netmask 255.0.0.0\n" ++
  "\tinet6 ::1  prefixlen 128  scopeid 0x10<host>\n" ++
  "\tloop  txqueuelen 1000  (本地环回)\n" ++
  "\tRX packets 102383991  bytes 42288672418 (42.2 GB)\n" ++
  "\tRX errors 0  dropped 0  overruns 0  frame 0\n" ++
  "\tTX packets 102383991  bytes 42288672418 (42.2 GB)\n" ++
  "\tTX errors 0  dropped 0 overruns 0  carrier 0  collisions 0"

/-! ## commands.go -/

/-- Variable `shellProgram`. -/
def shellProgram : List String := ["sh"]

/-- The implementations of interface `command`: one constructor per struct type. -/
inductive command where
  | cmdShell | cmdTrue | cmdFalse | cmdEcho | cmdCat | cmdSu | cmdIfconfig | cmdUname
deriving DecidableEq, Repr

/-- Go `map[string]command`. -/
abbrev CommandMap := String → Option command

/-- Map assignment `m[key] = value`. -/
def CommandMap.set (m : CommandMap) (key : String) (value : command) : CommandMap :=
  fun k => if k = key then some value else m k

/-- Function `registerCommands`, as a transformer of the map `commands`. -/
def registerCommands (m : CommandMap) : CommandMap :=
  ((((((((m.set "sh" .cmdShell).set "true" .cmdTrue).set "false" .cmdFalse).set "echo" .cmdEcho).set
    "cat" .cmdCat).set "su" .cmdSu).set "ifconfig" .cmdIfconfig).set "uname" .cmdUname)

/-- Variable `commands` after package initialisation: the empty map made by `make`, then the two
`init` functions in source order. -/
def commands : CommandMap :=
  (registerCommands (fun _ => none)).set "uname" .cmdUname

/-- Function `getPrompt`. -/
def getPrompt (context : commandContext) : String :=
  if context.pty then
    if context.user = "root" then "# " else "$ "
  else ""

/-- Function `parseExitStatus`; the conversion `uint32(status)` is the reduction mod 2^32. -/
def parseExitStatus (args : List String) (lastStatus : Nat) : Outcome :=
  match args with
  | _ :: a1 :: _ =>
    match strconv.ParseUint a1 32 with
    | .error _ => .ret 255 none
    | .ok status => .ret (status % 2 ^ 32) none
  | _ => .ret lastStatus none

/-- Method `cmdTrue.execute`. -/
def cmdTrue.execute (_context : commandContext) (w : World) : Outcome × World :=
  (.ret 0 none, w)

/-- Method `cmdFalse.execute`. -/
def cmdFalse.execute (_context : commandContext) (w : World) : Outcome × World :=
  (.ret 1 none, w)

/-- Method `cmdEcho.execute`; slicing `args[1:]` of an empty vector panics. -/
def cmdEcho.execute (context : commandContext) (w : World) : Outcome × World :=
  match context.args with
  | [] => (.fault "slice bounds out of range [1:0]", w)
  | _ :: rest =>
    let r := w.writeOut (strings.Join rest " " ++ "\n")
    (.ret 0 r.1, r.2)

/-- First loop of `cmdCat.execute`: scan the arguments for `-n` and collect the file names. -/
def cmdCat.scan : List String → Bool × List String → Bool × List String
  | [], acc => acc
  | arg :: rest, (numberLine, files) =>
    if arg = "-n" then cmdCat.scan rest (true, files)
    else cmdCat.scan rest (numberLine, files ++ [arg])

/-- Loop of `cmdCat.execute` over the collected file names; `prog` is `context.args[0]`. -/
def cmdCat.files (prog : String) : List String → World → Outcome × World
  | [], w => (.ret 1 none, w)
  | file :: rest, w =>
    if file = "/proc/cpuinfo" then
      let r := w.writeOut CpuInfo
      (.ret 0 r.1, r.2)
    else
      let r := w.writeErr (prog ++ ": " ++ file ++ ": No such file or directory\n")
      match r.1 with
      | some e => (.ret 0 (some e), r.2)
      | none => cmdCat.files prog rest r.2

/-- Loop of `cmdCat.execute` over the lines of `stdin`.  The counter `lineNumber` is a Go `int`
that starts at 1 and grows by one per line read; it is kept as a natural number (a run would
have to read 2^63 lines before a 64-bit `int` wraps). -/
def cmdCat.lines (numberLine : Bool) : Nat → Nat → World → Run
  | 0, _, _ => none
  | fuel + 1, lineNumber, w =>
    let r := w.readLine
    match r.1 with
    | .fail e => some (.ret 0 (some e), r.2)
    | .line line =>
      if numberLine then
        let r1 := r.2.writeOut (fmt.d6 lineNumber ++ "  " ++ line ++ "\n")
        match r1.1 with
        | some e => some (.ret 0 (some e), r1.2)
        | none => cmdCat.lines numberLine fuel (lineNumber + 1) r1.2
      else
        let r1 := r.2.writeOut (line ++ "\n")
        match r1.1 with
        | some e => some (.ret 0 (some e), r1.2)
        | none => cmdCat.lines numberLine fuel lineNumber r1.2

/-- Method `cmdCat.execute`. -/
def cmdCat.execute (fuel : Nat) (context : commandContext) (w : World) : Run :=
  match context.args with
  | [] => some (.fault "slice bounds out of range [1:0]", w)
  | prog :: rest =>
    let s := cmdCat.scan rest (false, [])
    if s.2.length > 0 then some (cmdCat.files prog s.2 w)
    else cmdCat.lines s.1 fuel 1 w

/-- Method `cmdUname.execute`. -/
def cmdUname.execute (_context : commandContext) (w : World) : Outcome × World :=
  let t := w.now
  let output := "Linux Server 6.8.0-31-generic #31-Ubuntu SMP PREEMPT_DYNAMIC " ++ t.1 ++
    " x86_64 x86_64 x86_64 GNU/Linux"
  let r := t.2.writeOut (output ++ "\n")
  (.ret 0 r.1, r.2)

/-- Method `cmdIfconfig.execute`. -/
def cmdIfconfig.execute (_context : commandContext) (w : World) : Outcome × World :=
  let r := w.writeOut (IfconfigOutput ++ "\n")
  (.ret 0 r.1, r.2)

mutual
/-- Function `executeProgram`. -/
def executeProgram : Nat → commandContext → World → Run
  | 0, _, _ => none
  | fuel + 1, context, w =>
    match context.args with
    | [] => some (.ret 0 none, w)
    | name :: _ =>
      match commands name with
      | none => some (.ret 127 none, (w.writeErr (name ++ ": command not found\n")).2)
      | some .cmdShell => cmdShell.execute fuel context w
      | some .cmdTrue => some (cmdTrue.execute context w)
      | some .cmdFalse => some (cmdFalse.execute context w)
      | some .cmdEcho => some (cmdEcho.execute context w)
      | some .cmdCat => cmdCat.execute fuel context w
      | some .cmdSu => cmdSu.execute fuel context w
      | some .cmdIfconfig => some (cmdIfconfig.execute context w)
      | some .cmdUname => some (cmdUname.execute context w)
/-- Method `cmdShell.execute`: compute the prompt, then run the loop from status 0. -/
def cmdShell.execute : Nat → commandContext → World → Run
  | 0, _, _ => none
  | fuel + 1, context, w => cmdShell.loop fuel context (getPrompt context) 0 w
/-- The `for` loop of `cmdShell.execute` with its two local variables.  The test
`len(line) == 0` holds exactly when the line has no character; indexing `args[0]` of an empty
`args` panics. -/
def cmdShell.loop : Nat → commandContext → String → Nat → World → Run
  | 0, _, _, _, _ => none
  | fuel + 1, context, prompt, lastStatus, w =>
    let w1 := (w.writeOut prompt).2
    let r := w1.readLine
    match r.1 with
    | .fail e => some (.ret lastStatus (some e), r.2)
    | .line line =>
      if line.length = 0 then cmdShell.loop fuel context prompt lastStatus r.2
      else
        match strings.Fields line with
        | [] => some (.fault "index out of range [0] with length 0", r.2)
        | a0 :: rest =>
          if a0 = "exit" then some (parseExitStatus (a0 :: rest) lastStatus, r.2)
          else
            match executeProgram fuel { context with args := a0 :: rest } r.2 with
            | none => none
            | some (.fault msg, w2) => some (.fault msg, w2)
            | some (.ret status err, w2) =>
              match err with
              | some e => some (.ret status (some e), w2)
              | none => cmdShell.loop fuel context prompt status w2
/-- Method `cmdSu.execute`. -/
def cmdSu.execute : Nat → commandContext → World → Run
  | 0, _, _ => none
  | fuel + 1, context, w =>
    let user := match context.args with
      | _ :: a1 :: _ => a1
      | _ => "root"
    executeProgram fuel { context with user := user, args := shellProgram } w
end

/-! ## request.go -/

/-- One byte of a wire payload. -/
abbrev Byte := Fin 256

/-- Go conversion `string(b)` of a byte slice, kept with one character per byte. -/
def bytesToString (bs : List Byte) : String :=
  String.mk (bs.map (fun b => Char.ofNat b.val))

/-- Go `binary.BigEndian.Uint32` on the first four bytes of a slice. -/
def binary.BigEndian.Uint32 (b0 b1 b2 b3 : Byte) : Nat :=
  b0.val * 2 ^ 24 + b1.val * 2 ^ 16 + b2.val * 2 ^ 8 + b3.val

/-- Library function `appendU32` of the ssh package: the four bytes of a `uint32`, most
significant first. -/
def ssh.appendU32 (n : Nat) : List Byte :=
  [Fin.ofNat (n / 2 ^ 24), Fin.ofNat (n / 2 ^ 16), Fin.ofNat (n / 2 ^ 8), Fin.ofNat n]

/-- Library function `parseUint32` of the ssh package: the value and the rest of the data. -/
def ssh.parseUint32 : List Byte → Option (Nat × List Byte)
  | b0 :: b1 :: b2 :: b3 :: rest => some (binary.BigEndian.Uint32 b0 b1 b2 b3, rest)
  | _ => none

/-- Library function `parseString` of the ssh package: a 32-bit length, then that many bytes;
the available length is compared as a `uint32`. -/
def ssh.parseString (data : List Byte) : Option (List Byte × List Byte) :=
  match ssh.parseUint32 data with
  | none => none
  | some (length, rest) =>
    if rest.length % 2 ^ 32 < length then none
    else some (rest.take length, rest.drop length)

/-- Library function `ssh.Unmarshal` into a struct with the fields `Address string` and
`Port uint32` and no message-type tag; `typeName` is the name of the struct type. -/
def ssh.Unmarshal (typeName : String) (data : List Byte) : Except GoError (String × Nat) :=
  if data.length = 0 then .error "ssh: parse error in message type 0"
  else
    match ssh.parseString data with
    | none => .error ("ssh: unmarshal error for field Address of type " ++ typeName)
    | some (s, rest) =>
      match ssh.parseUint32 rest with
      | none => .error "ssh: short read"
      | some (u32, rest2) =>
        if rest2.length ≠ 0 then .error "ssh: parse error in message type 0"
        else .ok (bytesToString s, u32)

/-- Library function `ssh.Marshal` of a struct with one `uint32` field and no tag. -/
def ssh.Marshal (port : Nat) : List Byte :=
  ssh.appendU32 port

/-- Go `net.JoinHostPort`: a host with a colon is put in brackets. -/
def net.JoinHostPort (host port : String) : String :=
  if host.data.contains ':' then "[" ++ host ++ "]:" ++ port else host ++ ":" ++ port

/-- Go `strconv.Itoa`. -/
def strconv.Itoa (n : Nat) : String :=
  toString n

/-- Modelled from the spec: the log entry types `tcpipForwardLog`, `cancelTCPIPForwardLog` and
`noMoreSessionsLog` are declared outside the given sources; the two forwarding entries carry
the address and port of the request, the third is a marker. -/
inductive logEntry where
  | tcpipForwardLog (Address : String)
  | cancelTCPIPForwardLog (Address : String)
  | noMoreSessionsLog
deriving DecidableEq, Repr

/-- Modelled from the spec: struct `connContext` is declared outside the given sources; it holds
the no-more-sessions flag of the connection, the user identity and the log sink, of which the
entries handed over so far are recorded, oldest first. -/
structure connContext where
  noMoreSessions : Bool
  user : String
  log : List logEntry
deriving DecidableEq, Repr

/-- Modelled from the spec: method `connContext.logEvent` is declared outside the given sources;
it hands one entry to the log sink of the connection. -/
def connContext.logEvent (context : connContext) (entry : logEntry) : connContext :=
  { context with log := context.log ++ [entry] }

/-- Struct `ssh.Request`, as far as the dispatcher reads it; the field `Type` is written
`type`. -/
structure Request where
  type : String
  WantReply : Bool
  Payload : List Byte
deriving DecidableEq, Repr

/-- Process- and transport-level state that request handling touches besides the connection
context: the counter vector `globalRequestsMetric` by label, the lines printed by
`warningLogger`, the `Reply` calls made on the request with the oracle of their failures, and
the pseudo-random source. -/
structure Env where
  /-- Counter value by label. -/
  metrics : String → Nat
  /-- Lines printed by `warningLogger`, oldest first. -/
  warnings : List String
  /-- Arguments `(ok, payload)` of the `Reply` calls made so far; a nil payload is `none`. -/
  replies : List (Bool × Option (List Byte))
  /-- Error returned by the k-th `Reply` call, if it fails. -/
  replyFail : Nat → Option GoError
  /-- Raw value behind the k-th pseudo-random draw. -/
  rand : Nat → Nat
  /-- Number of pseudo-random draws made so far. -/
  draws : Nat

/-- Call `globalRequestsMetric.WithLabelValues(label).Inc()`. -/
def Env.inc (env : Env) (label : String) : Env :=
  { env with metrics := fun l => if l = label then env.metrics l + 1 else env.metrics l }

/-- Call `warningLogger.Printf`. -/
def Env.warn (env : Env) (line : String) : Env :=
  { env with warnings := env.warnings ++ [line] }

/-- Method `request.Reply(ok, payload)`. -/
def Env.reply (env : Env) (ok : Bool) (payload : Option (List Byte)) : Option GoError × Env :=
  (env.replyFail env.replies.length, { env with replies := env.replies ++ [(ok, payload)] })

/-- Go `rand.Intn(n)` for `n > 0`: some number in `[0, n)`. -/
def Env.Intn (env : Env) (n : Nat) : Nat × Env :=
  (env.rand env.draws % n, { env with draws := env.draws + 1 })

/-- Struct `tcpipRequest`. -/
structure tcpipRequest where
  Address : String
  Port : Nat
deriving DecidableEq, Repr

/-- Struct `cancelTCPIPRequest`. -/
structure cancelTCPIPRequest where
  Address : String
  Port : Nat
deriving DecidableEq, Repr

/-- Method `tcpipRequest.reply`; the conversion `uint32(...)` is the reduction mod 2^32. -/
def tcpipRequest.reply (request : tcpipRequest) (_context : connContext) (env : Env) :
    Option (List Byte) × Env :=
  if request.Port ≠ 0 then (none, env)
  else
    let r := env.Intn (65536 - 1024)
    (some (ssh.Marshal ((r.1 + 1024) % 2 ^ 32)), r.2)

/-- Method `tcpipRequest.logEntry`. -/
def tcpipRequest.logEntry (request : tcpipRequest) (_context : connContext) : logEntry :=
  .tcpipForwardLog (net.JoinHostPort request.Address (strconv.Itoa request.Port))

/-- Method `cancelTCPIPRequest.reply`. -/
def cancelTCPIPRequest.reply (_request : cancelTCPIPRequest) (_context : connContext)
    (env : Env) : Option (List Byte) × Env :=
  (none, env)

/-- Method `cancelTCPIPRequest.logEntry`. -/
def cancelTCPIPRequest.logEntry (request : cancelTCPIPRequest) (_context : connContext) :
    logEntry :=
  .cancelTCPIPForwardLog (net.JoinHostPort request.Address (strconv.Itoa request.Port))

/-- The implementations of interface `globalRequestPayload`; `noMoreSessionsRequest` has no
field. -/
inductive globalRequestPayload where
  | tcpipRequest (request : tcpipRequest)
  | cancelTCPIPRequest (request : cancelTCPIPRequest)
  | noMoreSessionsRequest
deriving DecidableEq, Repr

/-- Interface method `reply`, by implementation; `noMoreSessionsRequest.reply` returns nil. -/
def globalRequestPayload.reply (payload : globalRequestPayload) (context : connContext)
    (env : Env) : Option (List Byte) × Env :=
  match payload with
  | .tcpipRequest request => request.reply context env
  | .cancelTCPIPRequest request => request.reply context env
  | .noMoreSessionsRequest => (none, env)

/-- Interface method `logEntry`, by implementation. -/
def globalRequestPayload.logEntry (payload : globalRequestPayload) (context : connContext) :
    logEntry :=
  match payload with
  | .tcpipRequest request => request.logEntry context
  | .cancelTCPIPRequest request => request.logEntry context
  | .noMoreSessionsRequest => .noMoreSessionsLog

/-- Type `globalRequestPayloadParser`. -/
abbrev globalRequestPayloadParser := List Byte → Except GoError globalRequestPayload

/-- Variable `globalRequestPayloads`: the parser registered for a request type, if any. -/
def globalRequestPayloads (type : String) : Option globalRequestPayloadParser :=
  if type = "tcpip-forward" then
    some (fun data =>
      match ssh.Unmarshal "tcpipRequest" data with
      | .error err => .error err
      | .ok p => .ok (.tcpipRequest { Address := p.1, Port := p.2 }))
  else if type = "cancel-tcpip-forward" then
    some (fun data =>
      match ssh.Unmarshal "cancelTCPIPRequest" data with
      | .error err => .error err
      | .ok p => .ok (.cancelTCPIPRequest { Address := p.1, Port := p.2 }))
  else if type = "no-more-sessions@openssh.com" then
    some (fun data =>
      if data.length ≠ 0 then .error "invalid request payload"
      else .ok .noMoreSessionsRequest)
  else none

/-- Function `handleGlobalRequest`: the returned error, the connection context and the
environment after the call. -/
def handleGlobalRequest (request : Request) (context : connContext) (env : Env) :
    Option GoError × connContext × Env :=
  match globalRequestPayloads request.type with
  | none =>
    let env1 := (env.inc "unknown").warn ("Unsupported global request type " ++ request.type)
    if request.WantReply then
      let r := env1.reply false none
      (r.1, context, r.2)
    else (none, context, env1)
  | some parser =>
    let env1 := env.inc request.type
    match parser request.Payload with
    | .error err => (some err, context, env1)
    | .ok payload =>
      let context1 :=
        match payload with
        | .noMoreSessionsRequest => { context with noMoreSessions := true }
        | _ => context
      if request.WantReply then
        let p := payload.reply context1 env1
        let r := p.2.reply true p.1
        match r.1 with
        | some err => (some err, context1, r.2)
        | none => (none, context1.logEvent (payload.logEntry context1), r.2)
      else (none, context1.logEvent (payload.logEntry context1), env1)

/-- Function `marshalBytes`: every element as a length-prefixed string, one after the other. -/
def marshalBytes (data : List (List Byte)) : List Byte :=
  data.foldl (fun result b => result ++ (ssh.appendU32 (b.length % 2 ^ 32) ++ b)) []

/-! ## Vocabulary of the statements -/

/-- Line source that yields the given lines and then fails with end-of-stream on every read. -/
def stdinOf (lines : List String) : Nat → ReadResult :=
  fun k => match lines[k]? with
    | some l => .line l
    | none => .fail "EOF"

/-- World at the start of a session on the given input lines: nothing read or written yet, and
sinks that accept every write. -/
def World.start (lines : List String) : World :=
  { input := stdinOf lines, reads := 0, outFail := fun _ => none, out := [],
    errFail := fun _ => none, err := [], clock := fun _ => "Mon Jan 2 15:04:05 UTC 2006",
    ticks := 0 }

/-- The user `su` switches to, in the words of the specification: "root" when `su` has no
argument, the first argument otherwise. -/
def suUser (args : List String) : String :=
  match args.drop 1 with
  | [] => "root"
  | a1 :: _ => a1

/-- Specification of `su`: the shell run with argument vector `["sh"]` in a context that differs
from the given one only in its user. -/
def suSpec (fuel : Nat) (context : commandContext) (w : World) : Run :=
  cmdShell.execute fuel { args := ["sh"], pty := context.pty, user := suUser context.args } w

/-- The string is a non-empty sequence of decimal digits. -/
def isDecimal (s : String) : Bool :=
  !s.data.isEmpty && s.data.all Char.isDigit

/-- Value of a sequence of decimal digits, most significant digit first. -/
def decimalValue (s : String) : Nat :=
  s.data.foldl (fun n c => 10 * n + (c.toNat - '0'.toNat)) 0

/-- Status that `exit s` yields according to the specification: the value of `s` when `s` is a
decimal numeral of value at most 2^32 - 1, and 255 otherwise. -/
def exitStatusSpec (s : String) : Nat :=
  if isDecimal s ∧ decimalValue s ≤ 4294967295 then decimalValue s else 255

/-- The message `cat` writes for a file it does not know, `prog` being `args[0]`. -/
def catMissing (prog file : String) : String :=
  prog ++ ": " ++ file ++ ": No such file or directory\n"

/-- The record `cat` writes for the input line number `i`: with numbering, the decimal `i`
right-aligned in six columns, two spaces, the line and a newline; without, the line and a
newline. -/
def catRecord (numberLine : Bool) (i : Nat) (line : String) : String :=
  if numberLine then fmt.d6 i ++ "  " ++ line ++ "\n" else line ++ "\n"

/-- The command lines of a plain session, by argument vector, with the status each one yields:
`true` (0), `false` (1), `cat` of one or more files none of which is `/proc/cpuinfo` (1), and a
command name that is neither registered nor `exit` (127); `none` for every other vector. -/
def simpleStatus (args : List String) : Option Nat :=
  match args with
  | [] => none
  | name :: rest =>
    if name = "true" then some 0
    else if name = "false" then some 1
    else if name = "cat" then
      if rest.filter (fun a => a ≠ "-n") ≠ [] ∧ "/proc/cpuinfo" ∉ rest then some 1 else none
    else if name ≠ "exit" ∧ commands name = none then some 127
    else none

/-- Status of the last command line of a plain session, 0 when there is none. -/
def sessionStatus (lines : List String) : Nat :=
  match lines.getLast? with
  | none => 0
  | some l => (simpleStatus (strings.Fields l)).getD 0

/-- The bytes a sink has received: the data of its `Write` calls, one after the other. -/
def sinkBytes (writes : List String) : String :=
  String.join writes

/-- The world `w2` is a later state of the same session as `w`: the same line source and sinks
(the same oracles), with no fewer reads made and the earlier writes still in front. -/
def World.later (w w2 : World) : Prop :=
  w2.input = w.input ∧ w2.outFail = w.outFail ∧ w2.errFail = w.errFail ∧ w2.clock = w.clock
    ∧ w.reads ≤ w2.reads ∧ w.out <+: w2.out ∧ w.err <+: w2.err

/-- Environment at the start: all counters at zero, nothing printed or sent, replies that
succeed, and the given raw pseudo-random values. -/
def Env.start (rand : Nat → Nat) : Env :=
  { metrics := fun _ => 0, warnings := [], replies := [], replyFail := fun _ => none,
    rand := rand, draws := 0 }

/-- The payload is a `noMoreSessionsRequest`. -/
def globalRequestPayload.isNoMoreSessions : globalRequestPayload → Bool
  | .noMoreSessionsRequest => true
  | _ => false

/-- Result of decoding the payload of a request with the parser registered for its type; `none`
when no parser is registered for the type. -/
def Request.decode (request : Request) : Option (Except GoError globalRequestPayload) :=
  (globalRequestPayloads request.type).map (fun parser => parser request.Payload)

/-- Number of lines the input yields at the reads `lo`, ..., `hi - 1`, failed reads not
counted. -/
def linesRead (input : Nat → ReadResult) (lo hi : Nat) : Nat :=
  ((List.range' lo (hi - lo)).filter (fun k =>
    match input k with
    | .line _ => true
    | .fail _ => false)).length

mutual
/-- Nesting depth that a run of `executeProgram` reaches: one more than the nested shell
reaches when the command is `sh` or `su`, and zero for every other command. -/
def dispatchDepth : Nat → commandContext → World → Nat
  | 0, _, _ => 0
  | fuel + 1, context, w =>
    match context.args with
    | [] => 0
    | name :: _ =>
      match commands name with
      | some .cmdShell => 1 + shellDepth fuel context w
      | some .cmdSu => suDepth fuel context w
      | _ => 0
/-- Nesting depth that a run of the shell reaches below itself: the largest number of shells
nested inside it that are running at the same time. -/
def shellDepth : Nat → commandContext → World → Nat
  | 0, _, _ => 0
  | fuel + 1, context, w => loopDepth fuel context (getPrompt context) 0 w
/-- Nesting depth that the shell loop reaches from a given turn on: the largest depth reached by
a command it dispatches. -/
def loopDepth : Nat → commandContext → String → Nat → World → Nat
  | 0, _, _, _, _ => 0
  | fuel + 1, context, prompt, lastStatus, w =>
    match w.input w.reads with
    | .fail _ => 0
    | .line line =>
      if line.length = 0 then
        loopDepth fuel context prompt lastStatus
          { w with out := w.out ++ [prompt], reads := w.reads + 1 }
      else
        match strings.Fields line with
        | [] => 0
        | a0 :: rest =>
          if a0 = "exit" then 0
          else
            match executeProgram fuel { context with args := a0 :: rest }
                { w with out := w.out ++ [prompt], reads := w.reads + 1 } with
            | some (.ret status none, w2) =>
              max (dispatchDepth fuel { context with args := a0 :: rest }
                  { w with out := w.out ++ [prompt], reads := w.reads + 1 })
                (loopDepth fuel context prompt status w2)
            | _ =>
              dispatchDepth fuel { context with args := a0 :: rest }
                { w with out := w.out ++ [prompt], reads := w.reads + 1 }
/-- Nesting depth that a run of `su` reaches: that of the dispatch of `sh` it makes. -/
def suDepth : Nat → commandContext → World → Nat
  | 0, _, _ => 0
  | fuel + 1, context, w =>
    let user := match context.args with
      | _ :: a1 :: _ => a1
      | _ => "root"
    dispatchDepth fuel { context with user := user, args := shellProgram } w
end

/-! ## Auxiliary facts -/

/-- The worker of `String.intercalate` is the append loop of `strings.Join`. -/
theorem intercalate_go_eq_foldl (sep : String) (rest : List String) (acc : String) :
    String.intercalate.go acc sep rest = rest.foldl (fun b s => b ++ sep ++ s) acc := by
  induction rest generalizing acc with
  | nil => rfl
  | cons a rest ih => simp [String.intercalate.go, ih]

/-- Go `strings.Join` agrees with `String.intercalate`. -/
theorem strings_Join_eq_intercalate (elems : List String) (sep : String) :
    strings.Join elems sep = sep.intercalate elems := by
  match elems with
  | [] => rfl
  | [a] => rfl
  | a :: b :: rest =>
    simp [strings.Join, String.intercalate, intercalate_go_eq_foldl]

/-- Dispatch of an unregistered name: one write on the error sink and status 127. -/
theorem executeProgram_unknown (fuel : Nat) (context : commandContext) (w : World)
    (name : String) (rest : List String) (hargs : context.args = name :: rest)
    (hname : commands name = none) :
    executeProgram (fuel + 1) context w
      = some (.ret 127 none, { w with err := w.err ++ [name ++ ": command not found\n"] }) := by
  simp [executeProgram, hargs, hname, World.writeErr]

/-- The digit test of `strconv.ParseUint` is `Char.isDigit`. -/
theorem char_digit_iff (c : Char) : ('0' ≤ c ∧ c ≤ '9') ↔ c.isDigit = true := by
  simp only [Char.isDigit, Bool.and_eq_true, decide_eq_true_eq, Char.le_def]
  constructor
  · rintro ⟨h1, h2⟩
    exact ⟨h1, h2⟩
  · rintro ⟨h1, h2⟩
    exact ⟨h1, h2⟩

/-- A digit has a value of at most 9. -/
theorem digit_value_le (c : Char) (h : c.isDigit = true) : c.toNat - 48 ≤ 9 := by
  simp only [Char.isDigit, Bool.and_eq_true, decide_eq_true_eq] at h
  have h2 : c.val.toNat ≤ 57 := by
    have := h.2
    exact UInt32.le_def.mp this
  show c.val.toNat - 48 ≤ 9
  omega

/-- The code point of the digit zero. -/
theorem zero_toNat : '0'.toNat = 48 := rfl

/-- Reading further digits never lowers the accumulated value. -/
theorem decimal_foldl_ge (cs : List Char) (n : Nat) :
    n ≤ cs.foldl (fun n c => 10 * n + (c.toNat - 48)) n := by
  induction cs generalizing n with
  | nil => simp
  | cons c cs ih =>
    simp only [List.foldl_cons]
    exact le_trans (by omega) (ih _)

/-- On digits only, the 32-bit digit loop returns the decimal value when it fits and a range
error otherwise; the `uint64` arithmetic never wraps on the way. -/
theorem parseUintLoop_digits (cs : List Char) (n : Nat)
    (hd : ∀ c ∈ cs, c.isDigit = true) (hn : n ≤ 4294967295) :
    strconv.parseUintLoop 4294967295 cs n
      = if cs.foldl (fun n c => 10 * n + (c.toNat - 48)) n ≤ 4294967295
        then .ok (cs.foldl (fun n c => 10 * n + (c.toNat - 48)) n)
        else .error strconv.ErrRange := by
  induction cs generalizing n with
  | nil =>
    simp only [strconv.parseUintLoop, List.foldl_nil]
    rw [if_pos hn]
  | cons c cs ih =>
    have hc : c.isDigit = true := hd c (List.mem_cons_self _ _)
    have hc2 : '0' ≤ c ∧ c ≤ '9' := (char_digit_iff c).2 hc
    have hd9 : c.toNat - 48 ≤ 9 := digit_value_le c hc
    have hrest : ∀ c ∈ cs, c.isDigit = true := fun x hx => hd x (List.mem_cons_of_mem _ hx)
    have hcut : ¬ n ≥ maxUint64 / 10 + 1 := by
      simp only [maxUint64]; omega
    have e10 : (n * 10) % 2 ^ 64 = n * 10 := Nat.mod_eq_of_lt (by omega)
    have e1 : (n * 10 + (c.toNat - 48)) % 2 ^ 64 = n * 10 + (c.toNat - 48) :=
      Nat.mod_eq_of_lt (by omega)
    have hcomm : 10 * n + (c.toNat - 48) = n * 10 + (c.toNat - 48) := by omega
    simp only [strconv.parseUintLoop, hc2, and_self, if_true, hcut, if_false, zero_toNat, e10, e1,
      List.foldl_cons]
    rw [hcomm]
    by_cases hbig : n * 10 + (c.toNat - 48) > 4294967295
    · have hge := decimal_foldl_ge cs (n * 10 + (c.toNat - 48))
      have hnot : ¬ cs.foldl (fun n c => 10 * n + (c.toNat - 48))
          (n * 10 + (c.toNat - 48)) ≤ 4294967295 := by omega
      rw [if_pos (Or.inr hbig), if_neg hnot]
    · have hno : ¬ (n * 10 + (c.toNat - 48) < n * 10 ∨
          n * 10 + (c.toNat - 48) > 4294967295) := by omega
      rw [if_neg hno]
      exact ih _ hrest (by omega)

/-- A character that is not a digit makes the digit loop fail. -/
theorem parseUintLoop_nondigit (maxVal : Nat) (cs : List Char) (n : Nat)
    (hd : ∃ c ∈ cs, c.isDigit = false) :
    ∃ e, strconv.parseUintLoop maxVal cs n = .error e := by
  induction cs generalizing n with
  | nil => simp at hd
  | cons c cs ih =>
    by_cases hc : c.isDigit = true
    · have hc2 : '0' ≤ c ∧ c ≤ '9' := (char_digit_iff c).2 hc
      have hrest : ∃ x ∈ cs, x.isDigit = false := by
        obtain ⟨x, hx, hxd⟩ := hd
        rcases List.mem_cons.1 hx with rfl | hx
        · simp [hc] at hxd
        · exact ⟨x, hx, hxd⟩
      simp only [strconv.parseUintLoop, hc2, and_self, if_true]
      split
      · exact ⟨_, rfl⟩
      · split
        · exact ⟨_, rfl⟩
        · exact ih _ hrest
    · have hc2 : ¬ ('0' ≤ c ∧ c ≤ '9') := fun h => hc ((char_digit_iff c).1 h)
      exact ⟨strconv.ErrBadDigits, by simp [strconv.parseUintLoop, hc2]⟩

/-- With a second token `s`, `parseExitStatus` returns the specified status of `exit s`. -/
theorem parseExitStatus_spec (a0 s : String) (rest : List String) (lastStatus : Nat) :
    parseExitStatus (a0 :: s :: rest) lastStatus = .ret (exitStatusSpec s) none := by
  have hmax : (2 : Nat) ^ 32 - 1 = 4294967295 := by norm_num
  have hfold : decimalValue s = s.data.foldl (fun n c => 10 * n + (c.toNat - 48)) 0 := rfl
  unfold parseExitStatus exitStatusSpec
  by_cases hdec : isDecimal s = true
  · have hdec2 := hdec
    simp only [isDecimal, Bool.and_eq_true, Bool.not_eq_true', List.all_eq_true] at hdec2
    have hne : s ≠ "" := by
      intro h
      rw [h] at hdec2
      simp at hdec2
    have hloop := parseUintLoop_digits s.data 0 hdec2.2 (by omega)
    simp only [strconv.ParseUint, hne, if_false, hmax, hloop, ← hfold, hdec, true_and]
    by_cases hle : decimalValue s ≤ 4294967295
    · simp only [hle, if_true]
      congr 1
      exact Nat.mod_eq_of_lt (by omega)
    · simp only [hle, if_false]
  · have hspec : ¬ (isDecimal s = true ∧ decimalValue s ≤ 4294967295) := fun h => hdec h.1
    rw [if_neg hspec]
    by_cases hs : s = ""
    · simp [strconv.ParseUint, hs]
    · have hnd : ∃ c ∈ s.data, c.isDigit = false := by
        by_contra hcon
        apply hdec
        simp only [isDecimal, Bool.and_eq_true, Bool.not_eq_true', List.all_eq_true]
        refine ⟨?_, ?_⟩
        · cases hsd : s.data with
          | nil => exact absurd (String.ext hsd) hs
          | cons _ _ => rfl
        · intro c hc
          by_contra hcd
          exact hcon ⟨c, hc, by simpa using hcd⟩
      obtain ⟨e, he⟩ := parseUintLoop_nondigit 4294967295 s.data 0 hnd
      simp only [strconv.ParseUint, hs, if_false, hmax, he]


/-- A line with at least one field is not the empty line. -/
theorem Fields_ne_nil_length (line : String) (h : strings.Fields line ≠ []) :
    ¬ line.length = 0 := by
  intro h0
  apply h
  have hd : line.data = [] := List.length_eq_zero.mp h0
  simp [strings.Fields, hd, strings.fieldsFrom]

/-- The argument scan of `cat` sets the flag when `-n` occurs and keeps the other arguments in
order. -/
theorem cmdCat_scan_eq (rest : List String) (numberLine : Bool) (files : List String) :
    cmdCat.scan rest (numberLine, files)
      = (numberLine || rest.contains "-n", files ++ rest.filter (fun a => a ≠ "-n")) := by
  induction rest generalizing numberLine files with
  | nil => simp [cmdCat.scan]
  | cons a rest ih =>
    by_cases ha : a = "-n"
    · subst ha
      simp [cmdCat.scan, ih]
    · have ha2 : ¬ "-n" = a := fun h => ha h.symm
      simp [cmdCat.scan, ih, ha, ha2]

/-- The file loop of `cat` on unknown files: one message each, status 1, when the error sink
accepts the writes. -/
theorem cmdCat_files_missing (prog : String) (files : List String) (w : World)
    (hcpu : "/proc/cpuinfo" ∉ files)
    (hsink : ∀ k, w.err.length ≤ k → k < w.err.length + files.length → w.errFail k = none) :
    cmdCat.files prog files w
      = (.ret 1 none, { w with err := w.err ++ files.map (catMissing prog) }) := by
  induction files generalizing w with
  | nil => simp [cmdCat.files]
  | cons file rest ih =>
    have hfile : file ≠ "/proc/cpuinfo" := fun h => hcpu (by simp [h])
    have hrest : "/proc/cpuinfo" ∉ rest := fun h => hcpu (List.mem_cons_of_mem _ h)
    have h0 : w.errFail w.err.length = none :=
      hsink _ (le_refl _) (by simp)
    have hsink2 : ∀ k, (w.writeErr (catMissing prog file)).2.err.length ≤ k →
        k < (w.writeErr (catMissing prog file)).2.err.length + rest.length →
        (w.writeErr (catMissing prog file)).2.errFail k = none := by
      intro k h1 h2
      simp only [World.writeErr, List.length_append, List.length_singleton] at h1 h2
      exact hsink k (by omega) (by simp only [List.length_cons]; omega)
    have step := ih (w.writeErr (catMissing prog file)).2 hrest hsink2
    have unfold1 : cmdCat.files prog (file :: rest) w
        = cmdCat.files prog rest (w.writeErr (catMissing prog file)).2 := by
      simp only [cmdCat.files, hfile, if_false, catMissing]
      simp only [World.writeErr, h0]
    rw [unfold1, step]
    simp [World.writeErr]

/-- One turn of the line loop of `cat` on a failed read. -/
theorem cmdCat_lines_fail (numberLine : Bool) (fuel n : Nat) (w : World) (e : GoError)
    (h : w.input w.reads = .fail e) :
    cmdCat.lines numberLine (fuel + 1) n w
      = some (.ret 0 (some e), { w with reads := w.reads + 1 }) := by
  simp [cmdCat.lines, World.readLine, h]

/-- One turn of the line loop of `cat` on a line whose record the output sink accepts. -/
theorem cmdCat_lines_line (numberLine : Bool) (fuel n : Nat) (w : World) (a : String)
    (h : w.input w.reads = .line a) (h0 : w.outFail w.out.length = none) :
    cmdCat.lines numberLine (fuel + 1) n w
      = cmdCat.lines numberLine fuel (if numberLine then n + 1 else n)
          { w with reads := w.reads + 1, out := w.out ++ [catRecord numberLine n a] } := by
  cases numberLine <;>
    simp [cmdCat.lines, World.readLine, h, World.writeOut, h0, catRecord]

/-- Without numbering the records do not depend on the counter. -/
theorem catRecord_false_map (ls : List String) (n : Nat) :
    (ls.enumFrom n).map (fun p => catRecord false p.1 p.2) = ls.map (fun l => l ++ "\n") := by
  induction ls generalizing n with
  | nil => rfl
  | cons a ls ih =>
    simp only [List.enumFrom_cons, List.map_cons, ih]
    simp [catRecord]

/-- The line loop of `cat` on `k` lines followed by a failed read, with an output sink that
accepts the writes: one record per line, numbered from the starting counter. -/
theorem cmdCat_lines_records (numberLine : Bool) (ls : List String) (e : GoError) (fuel : Nat)
    (n : Nat) (w : World)
    (hin : ∀ i l, ls[i]? = some l → w.input (w.reads + i) = .line l)
    (heof : w.input (w.reads + ls.length) = .fail e)
    (hsink : ∀ k, w.out.length ≤ k → k < w.out.length + ls.length → w.outFail k = none) :
    cmdCat.lines numberLine (fuel + ls.length + 1) n w
      = some (.ret 0 (some e),
          { w with reads := w.reads + ls.length + 1,
                   out := w.out ++ (ls.enumFrom n).map
                     (fun p => catRecord numberLine p.1 p.2) }) := by
  induction ls generalizing n w with
  | nil =>
    have heof2 : w.input w.reads = .fail e := by simpa using heof
    rw [show fuel + ([] : List String).length + 1 = fuel + 1 from rfl,
      cmdCat_lines_fail numberLine fuel n w e heof2]
    simp
  | cons a ls ih =>
    have ha : w.input w.reads = .line a := by simpa using hin 0 a (by simp)
    have h0 : w.outFail w.out.length = none := hsink _ (le_refl _) (by simp)
    have hfuel : fuel + (a :: ls).length + 1 = (fuel + ls.length + 1) + 1 := by
      simp only [List.length_cons]; omega
    rw [hfuel, cmdCat_lines_line numberLine _ n w a ha h0]
    rw [ih]
    · congr 3
      · simp only [List.length_cons]; omega
      · simp only [List.enumFrom_cons, List.map_cons, List.append_assoc, List.singleton_append]
        congr 2
        cases numberLine with
        | true => rfl
        | false =>
          simp only [Bool.false_eq_true, if_false]
          rw [catRecord_false_map, catRecord_false_map]
    · intro i l hl
      have := hin (i + 1) l (by simpa using hl)
      show w.input (w.reads + 1 + i) = _
      rw [← this]; congr 1; omega
    · show w.input (w.reads + 1 + ls.length) = _
      rw [← heof]; congr 1; simp only [List.length_cons]; omega
    · intro k h1 h2
      simp only [List.length_append, List.length_singleton] at h1 h2
      exact hsink k (by omega) (by simp only [List.length_cons]; omega)


/-- A run of space characters has no field. -/
theorem fieldsFrom_spaces (cs : List Char) (h : ∀ c ∈ cs, unicode.IsSpace c = true) :
    strings.fieldsFrom cs [] = [] := by
  induction cs with
  | nil => rfl
  | cons c cs ih =>
    have hc : unicode.IsSpace c = true := h c (List.mem_cons_self _ _)
    simp only [strings.fieldsFrom, hc, if_true, List.isEmpty_nil]
    exact ih (fun x hx => h x (List.mem_cons_of_mem _ hx))

/-- One turn of the shell loop on a non-empty line made of space characters only: the index
`args[0]` is out of range. -/
theorem loop_whitespace_line (fuel : Nat) (context : commandContext) (prompt : String)
    (lastStatus : Nat) (w : World) (line : String)
    (hread : w.input w.reads = .line line) (hne : line ≠ "")
    (hsp : ∀ c ∈ line.data, unicode.IsSpace c = true) :
    cmdShell.loop (fuel + 1) context prompt lastStatus w
      = some (.fault "index out of range [0] with length 0",
          { w with out := w.out ++ [prompt], reads := w.reads + 1 }) := by
  have hlen : ¬ line.length = 0 := by
    intro h0
    exact hne (String.ext (List.length_eq_zero.mp h0))
  have hf : strings.Fields line = [] := fieldsFrom_spaces line.data hsp
  simp [cmdShell.loop, World.writeOut, World.readLine, hread, hlen, hf]

/-- One turn of the shell loop on the empty line: the line is skipped. -/
theorem loop_empty_line (fuel : Nat) (context : commandContext) (prompt : String)
    (lastStatus : Nat) (w : World) (hread : w.input w.reads = .line "") :
    cmdShell.loop (fuel + 1) context prompt lastStatus w
      = cmdShell.loop fuel context prompt lastStatus
          { w with out := w.out ++ [prompt], reads := w.reads + 1 } := by
  rw [cmdShell.loop]
  simp [World.writeOut, World.readLine, hread]

/-- One turn of the shell loop on an `exit` line. -/
theorem loop_exit (fuel : Nat) (context : commandContext) (prompt : String) (lastStatus : Nat)
    (w : World) (line a0 : String) (rest : List String)
    (hread : w.input w.reads = .line line) (hargs : strings.Fields line = a0 :: rest)
    (h0 : a0 = "exit") :
    cmdShell.loop (fuel + 1) context prompt lastStatus w
      = some (parseExitStatus (a0 :: rest) lastStatus,
          { w with out := w.out ++ [prompt], reads := w.reads + 1 }) := by
  have hlen : ¬ line.length = 0 := Fields_ne_nil_length line (by simp [hargs])
  simp [cmdShell.loop, World.writeOut, World.readLine, hread, hlen, hargs, h0]

/-- One turn of the shell loop on a line whose first token is not `exit`. -/
theorem loop_dispatch (fuel : Nat) (context : commandContext) (prompt : String)
    (lastStatus : Nat) (w : World) (line a0 : String) (rest : List String)
    (hread : w.input w.reads = .line line) (hargs : strings.Fields line = a0 :: rest)
    (h0 : a0 ≠ "exit") :
    cmdShell.loop (fuel + 1) context prompt lastStatus w
      = match executeProgram fuel { context with args := a0 :: rest }
            { w with out := w.out ++ [prompt], reads := w.reads + 1 } with
        | none => none
        | some (.fault msg, w2) => some (.fault msg, w2)
        | some (.ret status (some e), w2) => some (.ret status (some e), w2)
        | some (.ret status none, w2) => cmdShell.loop fuel context prompt status w2 := by
  have hlen : ¬ line.length = 0 := Fields_ne_nil_length line (by simp [hargs])
  rw [cmdShell.loop]
  simp only [World.writeOut, World.readLine, hread, hlen, hargs, h0, if_false]
  generalize executeProgram fuel _ _ = r
  match r with
  | none => rfl
  | some (.fault _, _) => rfl
  | some (.ret _ (some _), _) => rfl
  | some (.ret _ none, _) => rfl

/-- Dispatch of a plain command line: it returns its status with a nil error and touches neither
the input source nor the output sink. -/
theorem simple_dispatch (fuel : Nat) (context : commandContext) (args : List String) (s : Nat)
    (w : World) (hs : simpleStatus args = some s) (hsink : ∀ k, w.errFail k = none) :
    ∃ w2, executeProgram (fuel + 1) { context with args := args } w = some (.ret s none, w2)
      ∧ w2.input = w.input ∧ w2.reads = w.reads ∧ w2.errFail = w.errFail ∧ w2.out = w.out := by
  match args, hs with
  | [], hs => simp [simpleStatus] at hs
  | name :: rest, hs =>
    simp only [simpleStatus] at hs
    by_cases h1 : name = "true"
    · subst h1
      have hc : commands "true" = some .cmdTrue := by decide
      simp only [if_true, Option.some.injEq] at hs
      subst hs
      exact ⟨w, by simp [executeProgram, hc, cmdTrue.execute]⟩
    · by_cases h2 : name = "false"
      · subst h2
        have hc : commands "false" = some .cmdFalse := by decide
        simp only [h1, if_false, if_true, Option.some.injEq] at hs
        subst hs
        exact ⟨w, by simp [executeProgram, hc, cmdFalse.execute]⟩
      · by_cases h3 : name = "cat"
        · subst h3
          have hc : commands "cat" = some .cmdCat := by decide
          simp only [h1, h2, if_false, if_true] at hs
          split at hs
          · rename_i hfiles
            simp only [Option.some.injEq] at hs
            subst hs
            have hcpu : "/proc/cpuinfo" ∉ rest.filter (fun a => a ≠ "-n") :=
              fun h => hfiles.2 (List.mem_of_mem_filter h)
            have hpos : (rest.filter (fun a => a ≠ "-n")).length > 0 :=
              List.length_pos.mpr hfiles.1
            have hrun := cmdCat_files_missing "cat" _ w hcpu (fun k _ _ => hsink k)
            refine ⟨(cmdCat.files "cat" (rest.filter (fun a => a ≠ "-n")) w).2, ?_, ?_, ?_, ?_, ?_⟩
            · simp only [executeProgram, hc, cmdCat.execute, cmdCat_scan_eq, List.nil_append,
                hpos, if_true]
              rw [hrun]
            all_goals rw [hrun]
          · simp at hs
        · simp only [h1, h2, h3, if_false] at hs
          split at hs
          · rename_i hunk
            simp only [Option.some.injEq] at hs
            subst hs
            exact ⟨_, executeProgram_unknown fuel _ w name rest rfl hunk.2, rfl, rfl, rfl, rfl⟩
          · simp at hs


/-- A plain command line has a first token, and it is not `exit`. -/
theorem simpleStatus_cons (args : List String) (s : Nat) (hs : simpleStatus args = some s) :
    ∃ a0 rest, args = a0 :: rest ∧ a0 ≠ "exit" := by
  match args, hs with
  | [], hs => simp [simpleStatus] at hs
  | name :: rest, hs =>
    refine ⟨name, rest, rfl, ?_⟩
    intro h
    subst h
    simp [simpleStatus] at hs

/-- Folding with a function that forgets the accumulator yields its value at the last element. -/
theorem foldl_last_eq (f : String → Nat) (ls : List String) (init : Nat) :
    ls.foldl (fun _ l => f l) init
      = match ls.getLast? with
        | none => init
        | some l => f l := by
  induction ls generalizing init with
  | nil => rfl
  | cons a ls ih =>
    rw [List.foldl_cons, ih]
    cases ls with
    | nil => rfl
    | cons b ls =>
      rw [List.getLast?_cons_cons]
      cases h : (b :: ls).getLast? with
      | none => simp at h
      | some x => rfl

/-- The shell loop on a plain session, from any last status. -/
theorem loop_simple_session (context : commandContext) (prompt : String) (exitLine : String)
    (fuel : Nat) (ls : List String) (lastStatus : Nat) (w : World)
    (hsink : ∀ k, w.errFail k = none)
    (hin : ∀ i l, ls[i]? = some l → w.input (w.reads + i) = .line l)
    (hsimple : ∀ l ∈ ls, ∃ s, simpleStatus (strings.Fields l) = some s)
    (hexit : w.input (w.reads + ls.length) = .line exitLine)
    (hbare : strings.Fields exitLine = ["exit"]) :
    ∃ w2, cmdShell.loop (fuel + ls.length + 1) context prompt lastStatus w
        = some (.ret (ls.foldl (fun _ l => (simpleStatus (strings.Fields l)).getD 0) lastStatus)
            none, w2)
      ∧ w2.reads = w.reads + ls.length + 1
      ∧ w2.out = w.out ++ List.replicate (ls.length + 1) prompt := by
  induction ls generalizing lastStatus w with
  | nil =>
    have hexit2 : w.input w.reads = .line exitLine := by simpa using hexit
    refine ⟨{ w with out := w.out ++ [prompt], reads := w.reads + 1 }, ?_, rfl, rfl⟩
    rw [show fuel + ([] : List String).length + 1 = fuel + 1 from rfl,
      loop_exit fuel context prompt lastStatus w exitLine "exit" [] hexit2 hbare rfl]
    rfl
  | cons l ls ih =>
    obtain ⟨s, hs⟩ := hsimple l (List.mem_cons_self _ _)
    obtain ⟨a0, rest, hargs, h0⟩ := simpleStatus_cons _ s hs
    have hl : w.input w.reads = .line l := by simpa using hin 0 l (by simp)
    have hfuel : fuel + (l :: ls).length + 1 = (fuel + ls.length + 1) + 1 := by
      simp only [List.length_cons]; omega
    rw [hargs] at hs
    obtain ⟨w2, hrun, hinput, hreads, hfail, hout⟩ :=
      simple_dispatch (fuel + ls.length) context (a0 :: rest) s
        { w with out := w.out ++ [prompt], reads := w.reads + 1 } hs hsink
    obtain ⟨w3, hloop, hreads3, hout3⟩ := ih s w2
      (by intro k; rw [hfail]; exact hsink k)
      (by
        intro i x hx
        have := hin (i + 1) x (by simpa using hx)
        rw [hinput, hreads]
        show w.input (w.reads + 1 + i) = _
        rw [← this]; congr 1; omega)
      (fun x hx => hsimple x (List.mem_cons_of_mem _ hx))
      (by
        rw [hinput, hreads]
        show w.input (w.reads + 1 + ls.length) = _
        rw [← hexit]; congr 1; simp only [List.length_cons]; omega)
    refine ⟨w3, ?_, ?_, ?_⟩
    · rw [hfuel, loop_dispatch _ context prompt lastStatus w l a0 rest hl hargs h0, hrun]
      simp only [List.foldl_cons, hargs, hs, Option.getD_some]
      exact hloop
    · rw [hreads3, hreads]
      simp only [List.length_cons]; omega
    · rw [hout3, hout]
      simp only [List.length_cons, List.append_assoc, List.singleton_append]
      rfl

/-- The input of `World.start` yields the given lines in order. -/
theorem stdinOf_get (ls : List String) (i : Nat) (l : String) (h : ls[i]? = some l) :
    (World.start ls).input ((World.start ls).reads + i) = .line l := by
  simp [World.start, stdinOf, h]

/-- The input of `World.start` yields the lines of any initial segment in order. -/
theorem start_input_initial (ls more : List String) (i : Nat) (l : String)
    (h : ls[i]? = some l) :
    (World.start (ls ++ more)).input ((World.start (ls ++ more)).reads + i) = .line l := by
  have hi : i < ls.length := by
    by_contra hcon
    rw [List.getElem?_eq_none (by omega)] at h
    exact Option.noConfusion h
  simp [World.start, stdinOf, List.getElem?_append_left hi, h]

/-! ## Claims C1 to C10 -/


/-- C1: when the argument vector is non-empty and `args[0]` is not a key of the command registry,
`executeProgram` returns status 127 with a nil error, makes exactly one write on the error sink,
the line `<args[0]>: command not found`, and leaves the output sink and the input source
untouched. -/
theorem C1_unknown_command (fuel : Nat) (context : commandContext) (w : World)
    (name : String) (rest : List String) (hargs : context.args = name :: rest)
    (hname : commands name = none) :
    executeProgram (fuel + 1) context w
      = some (.ret 127 none, { w with err := w.err ++ [name ++ ": command not found\n"] }) :=
  executeProgram_unknown fuel context w name rest hargs hname

/-- C1 at the command line `nosuchcmd -x` on a fresh session. -/
theorem C1_unknown_command_witness :
    executeProgram 1 ⟨["nosuchcmd", "-x"], false, "alice"⟩ (World.start [])
      = some (.ret 127 none,
          { World.start [] with err := ["nosuchcmd: command not found\n"] }) :=
  C1_unknown_command 0 ⟨["nosuchcmd", "-x"], false, "alice"⟩ (World.start []) "nosuchcmd" ["-x"]
    rfl (by decide)

/-- C2: a line made of one space is not skipped by the shell loop: the length test lets it
through, `strings.Fields` yields no token and indexing `args[0]` panics, whatever the fuel,
whereas the empty line is skipped and the loop goes on to the next prompt and read. -/
theorem C2_whitespace_only_line_faults :
    (∀ fuel, cmdShell.execute (fuel + 2) ⟨["sh"], true, "alice"⟩ (World.start [" "])
      = some (.fault "index out of range [0] with length 0",
          { World.start [" "] with reads := 1, out := ["$ "] }))
    ∧ (∀ fuel, cmdShell.execute (fuel + 3) ⟨["sh"], true, "alice"⟩ (World.start [""])
      = some (.ret 0 (some "EOF"),
          { World.start [""] with reads := 2, out := ["$ ", "$ "] })) :=
  ⟨fun _ => rfl, fun _ => rfl⟩

/-- C3, amended: in a session whose error sink accepts every write and whose input is any finite
sequence of plain command lines (`true`, `false`, an unregistered name other than `exit`, `cat`
of files that do not exist) followed by a bare `exit` line, the shell, given enough fuel, stops
at none of the command lines: it reads every line, writes one prompt per read, and returns with
a nil error the status of the last command line (0 when there is none). -/
theorem C3_plain_session_status (context : commandContext) (w : World) (ls : List String)
    (exitLine : String) (fuel : Nat)
    (hsink : ∀ k, w.errFail k = none)
    (hin : ∀ i l, ls[i]? = some l → w.input (w.reads + i) = .line l)
    (hsimple : ∀ l ∈ ls, (simpleStatus (strings.Fields l)).isSome = true)
    (hexit : w.input (w.reads + ls.length) = .line exitLine)
    (hbare : strings.Fields exitLine = ["exit"]) :
    ∃ w2, cmdShell.execute (fuel + ls.length + 2) context w
        = some (.ret (sessionStatus ls) none, w2)
      ∧ w2.reads = w.reads + ls.length + 1
      ∧ w2.out = w.out ++ List.replicate (ls.length + 1) (getPrompt context) := by
  obtain ⟨w2, hloop, hreads, hout⟩ :=
    loop_simple_session context (getPrompt context) exitLine fuel ls 0 w hsink hin
      (fun l hl => Option.isSome_iff_exists.mp (hsimple l hl)) hexit hbare
  refine ⟨w2, ?_, hreads, hout⟩
  rw [show fuel + ls.length + 2 = (fuel + ls.length + 1) + 1 from rfl, cmdShell.execute, hloop,
    foldl_last_eq]
  rfl

/-- C3, amended, on the sessions `true; exit` (status 0), `false; exit` (status 1) and on a
session with a line of each kind. -/
theorem C3_plain_session_status_witness :
    (∃ w2, cmdShell.execute (0 + ["true"].length + 2) ⟨["sh"], true, "alice"⟩
          (World.start ["true", "exit"]) = some (.ret 0 none, w2)
        ∧ w2.reads = (World.start ["true", "exit"]).reads + ["true"].length + 1
        ∧ w2.out = (World.start ["true", "exit"]).out ++ List.replicate (["true"].length + 1)
            (getPrompt ⟨["sh"], true, "alice"⟩))
    ∧ (∃ w2, cmdShell.execute (0 + ["false"].length + 2) ⟨["sh"], true, "alice"⟩
          (World.start ["false", "exit"]) = some (.ret 1 none, w2)
        ∧ w2.reads = (World.start ["false", "exit"]).reads + ["false"].length + 1
        ∧ w2.out = (World.start ["false", "exit"]).out ++ List.replicate (["false"].length + 1)
            (getPrompt ⟨["sh"], true, "alice"⟩))
    ∧ (∃ w2, cmdShell.execute (0 + ["false", "cat /nope", "true", "nosuchcmd -x"].length + 2)
          ⟨["sh"], false, "root"⟩
          (World.start ["false", "cat /nope", "true", "nosuchcmd -x", " exit "])
          = some (.ret 127 none, w2)
        ∧ w2.reads = (World.start ["false", "cat /nope", "true", "nosuchcmd -x", " exit "]).reads
            + ["false", "cat /nope", "true", "nosuchcmd -x"].length + 1
        ∧ w2.out = (World.start ["false", "cat /nope", "true", "nosuchcmd -x", " exit "]).out
            ++ List.replicate (["false", "cat /nope", "true", "nosuchcmd -x"].length + 1)
              (getPrompt ⟨["sh"], false, "root"⟩)) :=
  ⟨C3_plain_session_status ⟨["sh"], true, "alice"⟩ (World.start ["true", "exit"]) ["true"]
      "exit" 0 (fun _ => rfl) (start_input_initial ["true"] ["exit"])
      (by decide) rfl (by decide),
   C3_plain_session_status ⟨["sh"], true, "alice"⟩ (World.start ["false", "exit"]) ["false"]
      "exit" 0 (fun _ => rfl) (start_input_initial ["false"] ["exit"])
      (by decide) rfl (by decide),
   C3_plain_session_status ⟨["sh"], false, "root"⟩
      (World.start ["false", "cat /nope", "true", "nosuchcmd -x", " exit "])
      ["false", "cat /nope", "true", "nosuchcmd -x"] " exit " 0 (fun _ => rfl)
      (start_input_initial ["false", "cat /nope", "true", "nosuchcmd -x"] [" exit "])
      (by decide) rfl (by decide)⟩

/-- C3 as stated fails when the error sink rejects a write: the session `cat /nope`, `exit` is
made of a plain command line of status 1 and a bare `exit` line, but with an error sink that
fails `cat` returns the write error with status 0 and the shell loop stops at that line with
this error, after one read, whatever the fuel. -/
theorem C3_counterexample_failing_sink :
    simpleStatus (strings.Fields "cat /nope") = some 1
    ∧ strings.Fields "exit" = ["exit"]
    ∧ ∀ fuel, cmdShell.execute (fuel + 3) ⟨["sh"], false, "alice"⟩
        { World.start ["cat /nope", "exit"] with errFail := fun _ => some "write: broken pipe" }
      = some (.ret 0 (some "write: broken pipe"),
          { World.start ["cat /nope", "exit"] with
              errFail := fun _ => some "write: broken pipe", reads := 1, out := [""],
              err := ["cat: /nope: No such file or directory\n"] }) :=
  ⟨by decide, by decide, fun _ => rfl⟩

/-- C4: whatever the last status, a line whose tokens are `exit s ...` ends the shell loop with a
nil error after one prompt and one read, with the value of `s` as status when `s` is a decimal
numeral of value at most 2^32 - 1 and with status 255 for every other `s`; tokens after the
second play no part. -/
theorem C4_exit_code (fuel : Nat) (context : commandContext) (prompt : String)
    (lastStatus : Nat) (w : World) (line s : String) (rest : List String)
    (hread : w.input w.reads = .line line)
    (hargs : strings.Fields line = "exit" :: s :: rest) :
    cmdShell.loop (fuel + 1) context prompt lastStatus w
      = some (.ret (exitStatusSpec s) none,
          { w with out := w.out ++ [prompt], reads := w.reads + 1 }) := by
  rw [loop_exit fuel context prompt lastStatus w line "exit" (s :: rest) hread hargs rfl,
    parseExitStatus_spec]

/-- C4 on the lines `exit 42` and `exit notanumber more`, with last status 7. -/
theorem C4_exit_code_witness :
    cmdShell.loop 1 ⟨["sh"], true, "alice"⟩ "$ " 7 (World.start ["exit 42"])
        = some (.ret 42 none, { World.start ["exit 42"] with out := ["$ "], reads := 1 })
    ∧ cmdShell.loop 1 ⟨["sh"], true, "alice"⟩ "$ " 7 (World.start ["exit notanumber more"])
        = some (.ret 255 none,
            { World.start ["exit notanumber more"] with out := ["$ "], reads := 1 }) :=
  ⟨C4_exit_code 0 ⟨["sh"], true, "alice"⟩ "$ " 7 (World.start ["exit 42"]) "exit 42" "42" []
      rfl (by decide),
   C4_exit_code 0 ⟨["sh"], true, "alice"⟩ "$ " 7 (World.start ["exit notanumber more"])
      "exit notanumber more" "notanumber" ["more"] rfl (by decide)⟩

/-- C5: on `cat /nope /proc/cpuinfo` with sinks that accept every write, `cat` writes the
"No such file or directory" message for `/nope` and then returns status 0, not 1, whatever the
fuel: the return in the `/proc/cpuinfo` branch leaves the loop before the `return 1` that
follows it. -/
theorem C5_cat_missing_then_cpuinfo :
    ∀ fuel, cmdCat.execute fuel ⟨["cat", "/nope", "/proc/cpuinfo"], false, "alice"⟩
        (World.start [])
      = some (.ret 0 none,
          { World.start [] with
              err := ["cat: /nope: No such file or directory\n"], out := [CpuInfo] }) :=
  fun _ => rfl

/-- C6: when the arguments of `cat` other than `-n` are one or more file names, none of them
`/proc/cpuinfo`, and the error sink accepts the writes, `cat` writes on the error sink one line
`<args[0]>: <file>: No such file or directory` per file name, in argument order, and nothing
else, leaves the output sink and the input source untouched, and returns status 1 with a nil
error. -/
theorem C6_cat_missing_files (fuel : Nat) (context : commandContext) (w : World) (prog : String)
    (rest : List String) (hargs : context.args = prog :: rest)
    (hfiles : rest.filter (fun a => a ≠ "-n") ≠ [])
    (hcpu : "/proc/cpuinfo" ∉ rest)
    (hsink : ∀ k, w.err.length ≤ k →
      k < w.err.length + (rest.filter (fun a => a ≠ "-n")).length → w.errFail k = none) :
    cmdCat.execute fuel context w
      = some (.ret 1 none,
          { w with
              err := w.err ++ (rest.filter (fun a => a ≠ "-n")).map
                (fun file => prog ++ ": " ++ file ++ ": No such file or directory\n") }) := by
  have hcpu2 : "/proc/cpuinfo" ∉ rest.filter (fun a => a ≠ "-n") :=
    fun h => hcpu (List.mem_of_mem_filter h)
  have hpos : (rest.filter (fun a => a ≠ "-n")).length > 0 := List.length_pos.mpr hfiles
  simp only [cmdCat.execute, hargs, cmdCat_scan_eq, List.nil_append, hpos, if_true]
  rw [cmdCat_files_missing prog _ w hcpu2 hsink]
  rfl

/-- C6 on `cat /nope` in a fresh session. -/
theorem C6_cat_missing_files_witness :
    cmdCat.execute 0 ⟨["cat", "/nope"], false, "alice"⟩ (World.start [])
      = some (.ret 1 none,
          { World.start [] with err := ["cat: /nope: No such file or directory\n"] }) :=
  C6_cat_missing_files 0 ⟨["cat", "/nope"], false, "alice"⟩ (World.start []) "cat" ["/nope"]
    rfl (by decide) (by decide) (fun _ _ _ => rfl)

/-- C7: when the first argument of `cat` other than `-n` is `/proc/cpuinfo`, `cat` makes exactly
one write on the output sink, the text `CpuInfo`, returns status 0 (with whatever error that
write gave), and leaves the error sink and the input source untouched, whatever file names
follow and whether or not `-n` is present. -/
theorem C7_cat_cpuinfo (fuel : Nat) (context : commandContext) (w : World) (prog : String)
    (rest more : List String) (hargs : context.args = prog :: rest)
    (hfirst : rest.filter (fun a => a ≠ "-n") = "/proc/cpuinfo" :: more) :
    cmdCat.execute fuel context w
      = some (.ret 0 (w.outFail w.out.length), { w with out := w.out ++ [CpuInfo] }) := by
  simp only [cmdCat.execute, hargs, cmdCat_scan_eq, List.nil_append, hfirst]
  simp [cmdCat.files, World.writeOut]

/-- C7 on `cat -n /proc/cpuinfo /nope` in a fresh session. -/
theorem C7_cat_cpuinfo_witness :
    cmdCat.execute 0 ⟨["cat", "-n", "/proc/cpuinfo", "/nope"], false, "alice"⟩ (World.start [])
      = some (.ret 0 none, { World.start [] with out := [CpuInfo] }) :=
  C7_cat_cpuinfo 0 ⟨["cat", "-n", "/proc/cpuinfo", "/nope"], false, "alice"⟩ (World.start [])
    "cat" ["-n", "/proc/cpuinfo", "/nope"] ["/nope"] rfl (by decide)

/-- C8, amended: when `cat` has no file name argument (every argument is `-n`), the input yields
the lines `l1..lk` and then fails with `e`, and the output sink accepts the writes, `cat`, given
enough fuel, makes one write per line on the output sink, in order, returns status 0 together
with `e`, and leaves the error sink untouched; with `-n` the i-th record is the decimal `i`
right-aligned in six columns, two spaces, the line and a newline, without `-n` the line and a
newline. -/
theorem C8_cat_stdin (fuel : Nat) (context : commandContext) (w : World) (prog : String)
    (flags ls : List String) (e : GoError) (hargs : context.args = prog :: flags)
    (hflags : ∀ a ∈ flags, a = "-n")
    (hin : ∀ i l, ls[i]? = some l → w.input (w.reads + i) = .line l)
    (heof : w.input (w.reads + ls.length) = .fail e)
    (hsink : ∀ k, w.out.length ≤ k → k < w.out.length + ls.length → w.outFail k = none) :
    cmdCat.execute (fuel + ls.length + 1) context w
      = some (.ret 0 (some e),
          { w with reads := w.reads + ls.length + 1,
                   out := w.out ++ (ls.enumFrom 1).map
                     (fun p => catRecord (flags.contains "-n") p.1 p.2) }) := by
  have hnofile : flags.filter (fun a => a ≠ "-n") = [] := by
    rw [List.filter_eq_nil_iff]
    intro a ha
    simp [hflags a ha]
  simp only [cmdCat.execute, hargs, cmdCat_scan_eq, hnofile, List.nil_append, List.length_nil,
    gt_iff_lt, lt_self_iff_false, if_false, Bool.false_or]
  exact cmdCat_lines_records _ ls e fuel 1 w hin heof hsink

/-- C8 on `cat -n` reading the lines `x` and `y`. -/
theorem C8_cat_stdin_witness :
    cmdCat.execute (0 + ["x", "y"].length + 1) ⟨["cat", "-n"], false, "alice"⟩
        (World.start ["x", "y"])
      = some (.ret 0 (some "EOF"),
          { World.start ["x", "y"] with reads := 3, out := ["     1  x\n", "     2  y\n"] }) :=
  C8_cat_stdin 0 ⟨["cat", "-n"], false, "alice"⟩ (World.start ["x", "y"]) "cat" ["-n"]
    ["x", "y"] "EOF" rfl (by decide) (stdinOf_get ["x", "y"]) rfl (fun _ _ _ => rfl)

/-- C8 as stated fails when the output sink rejects a write: on the input lines `x` and `y`
followed by end-of-stream, with an output sink that fails, `cat` stops after the first write and
returns the write error, whatever the fuel, so no record is written for `y`. -/
theorem C8_counterexample_failing_sink :
    (World.start ["x", "y"]).input 0 = .line "x"
    ∧ (World.start ["x", "y"]).input 1 = .line "y"
    ∧ (World.start ["x", "y"]).input 2 = .fail "EOF"
    ∧ ∀ fuel, cmdCat.execute (fuel + 1) ⟨["cat"], false, "alice"⟩
        { World.start ["x", "y"] with outFail := fun _ => some "write: broken pipe" }
      = some (.ret 0 (some "write: broken pipe"),
          { World.start ["x", "y"] with
              outFail := fun _ => some "write: broken pipe", reads := 1, out := ["x\n"] }) :=
  ⟨rfl, rfl, rfl, fun _ => rfl⟩

/-- C9: for the argument vector `echo a1 ... an`, dispatch makes exactly one write on the output
sink, the arguments joined by single spaces and a newline, returns status 0 (with whatever error
that write gave), and leaves the error sink and the input source untouched. -/
theorem C9_echo (fuel : Nat) (as : List String) (pty : Bool) (user : String) (w : World) :
    executeProgram (fuel + 1) ⟨"echo" :: as, pty, user⟩ w
      = some (.ret 0 (w.outFail w.out.length),
          { w with out := w.out ++ [" ".intercalate as ++ "\n"] })
    ∧ " ".intercalate ([] : List String) ++ "\n" = "\n"
    ∧ " ".intercalate ["a", "b", "c"] ++ "\n" = "a b c\n" := by
  refine ⟨?_, by decide, by decide⟩
  have h : commands "echo" = some .cmdEcho := by decide
  simp [executeProgram, h, cmdEcho.execute, World.writeOut, strings_Join_eq_intercalate]

/-- C10: `su` refines the shell run with argument vector `["sh"]` in the context that differs only
in its user ("root" without argument, the first argument otherwise): the two calls that lead
from `su` to the shell cost two units of fuel and change nothing, so both have the same
results (outcome and world); with a pseudo-terminal the nested prompt is "# " for `su` and
"$ " for `su bob`. -/
theorem C10_su_refines_shell (context : commandContext) (w : World) :
    (∀ fuel, cmdSu.execute (fuel + 2) context w = suSpec fuel context w)
    ∧ (∀ r, (∃ fuel, cmdSu.execute fuel context w = some r) ↔
        (∃ fuel, suSpec fuel context w = some r))
    ∧ getPrompt { args := ["sh"], pty := true, user := suUser ["su"] } = "# "
    ∧ getPrompt { args := ["sh"], pty := true, user := suUser ["su", "bob"] } = "$ " := by
  have hsh : commands "sh" = some .cmdShell := by decide
  have key : ∀ fuel, cmdSu.execute (fuel + 2) context w = suSpec fuel context w := by
    intro fuel
    obtain ⟨args, pty, user⟩ := context
    match args with
    | [] => simp [cmdSu.execute, executeProgram, shellProgram, hsh, suSpec, suUser]
    | [_] => simp [cmdSu.execute, executeProgram, shellProgram, hsh, suSpec, suUser]
    | _ :: a1 :: _ => simp [cmdSu.execute, executeProgram, shellProgram, hsh, suSpec, suUser]
  refine ⟨key, ?_, by decide, by decide⟩
  intro r
  constructor
  · rintro ⟨fuel, h⟩
    match fuel, h with
    | 0, h => simp [cmdSu.execute] at h
    | 1, h => simp [cmdSu.execute, executeProgram] at h
    | fuel + 2, h => exact ⟨fuel, by rw [← key]; exact h⟩
  · rintro ⟨fuel, h⟩
    exact ⟨fuel + 2, by rw [key]; exact h⟩

/-! ## Auxiliary facts on the prompt and the registry -/

/-- An empty write adds no byte to a sink. -/
theorem sinkBytes_append_empty (writes : List String) :
    sinkBytes (writes ++ [""]) = sinkBytes writes := by
  simp [sinkBytes, String.join, List.foldl_append]

/-- The bytes of a sink after one more write. -/
theorem sinkBytes_append_one (writes : List String) (s : String) :
    sinkBytes (writes ++ [s]) = sinkBytes writes ++ s := by
  simp [sinkBytes, String.join, List.foldl_append]

/-- One turn of the shell loop on a failed read. -/
theorem loop_read_fail (fuel : Nat) (context : commandContext) (prompt : String)
    (lastStatus : Nat) (w : World) (e : GoError) (hread : w.input w.reads = .fail e) :
    cmdShell.loop (fuel + 1) context prompt lastStatus w
      = some (.ret lastStatus (some e),
          { w with out := w.out ++ [prompt], reads := w.reads + 1 }) := by
  simp [cmdShell.loop, World.writeOut, World.readLine, hread]

/-- One turn of the shell loop on a non-empty line without a field: the index `args[0]` is out
of range. -/
theorem loop_no_field (fuel : Nat) (context : commandContext) (prompt : String)
    (lastStatus : Nat) (w : World) (line : String)
    (hread : w.input w.reads = .line line) (hne : line ≠ "")
    (hf : strings.Fields line = []) :
    cmdShell.loop (fuel + 1) context prompt lastStatus w
      = some (.fault "index out of range [0] with length 0",
          { w with out := w.out ++ [prompt], reads := w.reads + 1 }) := by
  have hlen : ¬ line.length = 0 := by
    intro h0
    exact hne (String.ext (List.length_eq_zero.mp h0))
  simp [cmdShell.loop, World.writeOut, World.readLine, hread, hlen, hf]

/-- The keys of the command registry. -/
theorem commands_isSome_iff (name : String) :
    (commands name).isSome = true ↔
      name ∈ ["sh", "true", "false", "echo", "cat", "su", "ifconfig", "uname"] := by
  simp only [commands, registerCommands, CommandMap.set]
  constructor
  · intro h
    split_ifs at h <;> simp_all
  · intro h
    simp only [List.mem_cons, List.mem_singleton, List.not_mem_nil, or_false] at h
    rcases h with h | h | h | h | h | h | h | h <;> subst h <;> decide

/-- Without a pseudo-terminal the shell adds nothing of its own to what the dispatched commands
do: a property of the world that is kept by a read together with an empty write, and by every
run of a command other than `sh` and `su`, is kept by every run of the shell, of `su` and of
dispatch. -/
theorem shell_without_pty_keeps (good : World → Prop)
    (hturn : ∀ w : World, good w → good { w with out := w.out ++ [""], reads := w.reads + 1 })
    (hleaf : ∀ (fuel : Nat) (c : commandContext) (w : World) (o : Outcome) (w2 : World),
      (∀ name rest, c.args = name :: rest →
        commands name ≠ some .cmdShell ∧ commands name ≠ some .cmdSu) →
      executeProgram fuel c w = some (o, w2) → good w → good w2)
    (fuel : Nat) :
    (∀ (c : commandContext) (w : World) (o : Outcome) (w2 : World), c.pty = false →
      executeProgram fuel c w = some (o, w2) → good w → good w2)
    ∧ (∀ (c : commandContext) (w : World) (o : Outcome) (w2 : World), c.pty = false →
      cmdShell.execute fuel c w = some (o, w2) → good w → good w2)
    ∧ (∀ (c : commandContext) (lastStatus : Nat) (w : World) (o : Outcome) (w2 : World),
      c.pty = false → cmdShell.loop fuel c "" lastStatus w = some (o, w2) → good w → good w2)
    ∧ (∀ (c : commandContext) (w : World) (o : Outcome) (w2 : World), c.pty = false →
      cmdSu.execute fuel c w = some (o, w2) → good w → good w2) := by
  induction fuel with
  | zero =>
    refine ⟨?_, ?_, ?_, ?_⟩
    · intro c w o w2 _ h
      simp [executeProgram] at h
    · intro c w o w2 _ h
      simp [cmdShell.execute] at h
    · intro c lastStatus w o w2 _ h
      simp [cmdShell.loop] at h
    · intro c w o w2 _ h
      simp [cmdSu.execute] at h
  | succ fuel ih =>
    obtain ⟨ihExec, ihShell, ihLoop, ihSu⟩ := ih
    refine ⟨?_, ?_, ?_, ?_⟩
    · intro c w o w2 hpty h hg
      cases hargs : c.args with
      | nil =>
        rw [executeProgram] at h
        simp only [hargs] at h
        obtain ⟨-, rfl⟩ := Prod.mk.inj (Option.some.inj h)
        exact hg
      | cons name rest =>
        by_cases hsh : commands name = some .cmdShell
        · rw [executeProgram] at h
          simp only [hargs, hsh] at h
          exact ihShell c w o w2 hpty h hg
        · by_cases hsu : commands name = some .cmdSu
          · rw [executeProgram] at h
            simp only [hargs, hsu] at h
            exact ihSu c w o w2 hpty h hg
          · refine hleaf (fuel + 1) c w o w2 ?_ h hg
            intro name2 rest2 h2
            rw [hargs] at h2
            obtain ⟨rfl, -⟩ := List.cons.inj h2
            exact ⟨hsh, hsu⟩
    · intro c w o w2 hpty h hg
      rw [cmdShell.execute] at h
      have hp : getPrompt c = "" := by simp [getPrompt, hpty]
      rw [hp] at h
      exact ihLoop c 0 w o w2 hpty h hg
    · intro c lastStatus w o w2 hpty h hg
      have hg1 := hturn w hg
      cases hr : w.input w.reads with
      | fail e =>
        rw [loop_read_fail fuel c "" lastStatus w e hr] at h
        obtain ⟨-, rfl⟩ := Prod.mk.inj (Option.some.inj h)
        exact hg1
      | line l =>
        by_cases hl : l = ""
        · subst hl
          rw [loop_empty_line fuel c "" lastStatus w hr] at h
          exact ihLoop c lastStatus _ o w2 hpty h hg1
        · cases hargs : strings.Fields l with
          | nil =>
            rw [loop_no_field fuel c "" lastStatus w l hr hl hargs] at h
            obtain ⟨-, rfl⟩ := Prod.mk.inj (Option.some.inj h)
            exact hg1
          | cons a0 rest =>
            by_cases h0 : a0 = "exit"
            · rw [loop_exit fuel c "" lastStatus w l a0 rest hr hargs h0] at h
              obtain ⟨-, rfl⟩ := Prod.mk.inj (Option.some.inj h)
              exact hg1
            · rw [loop_dispatch fuel c "" lastStatus w l a0 rest hr hargs h0] at h
              cases hx : executeProgram fuel { c with args := a0 :: rest }
                  { w with out := w.out ++ [""], reads := w.reads + 1 } with
              | none => simp [hx] at h
              | some r =>
                obtain ⟨o3, w3⟩ := r
                have hg3 : good w3 := ihExec { c with args := a0 :: rest } _ o3 w3 hpty hx hg1
                rw [hx] at h
                cases o3 with
                | fault msg =>
                  obtain ⟨-, rfl⟩ := Prod.mk.inj (Option.some.inj h)
                  exact hg3
                | ret status err =>
                  cases err with
                  | some e =>
                    obtain ⟨-, rfl⟩ := Prod.mk.inj (Option.some.inj h)
                    exact hg3
                  | none => exact ihLoop c status w3 o w2 hpty h hg3
    · intro c w o w2 hpty h hg
      rw [cmdSu.execute] at h
      exact ihExec _ w o w2 (by exact hpty) h hg

/-! ## Claims C11 and C12 -/

/-- C11: the prompt is "# " exactly when a pseudo-terminal is attached and the user is "root",
"$ " exactly when a pseudo-terminal is attached and the user is another one, and empty exactly
when no pseudo-terminal is attached; so without a pseudo-terminal the shell runs its loop with
the empty prompt, and the one write the loop makes itself in a turn, before the read, adds no
byte to the output sink: on a failed read, an empty line, a line without a field or an `exit`
line the turn leaves the bytes of the sink as they were, and a dispatched command starts on
these same bytes; over a whole session, whatever holds of the world before, is kept by a read
with an empty write and is kept by the commands other than `sh` and `su`, holds after. -/
theorem C11_prompt (context : commandContext) :
    (getPrompt context = "# " ↔ context.pty = true ∧ context.user = "root")
    ∧ (getPrompt context = "$ " ↔ context.pty = true ∧ context.user ≠ "root")
    ∧ (getPrompt context = "" ↔ context.pty = false)
    ∧ (context.pty = false →
        (∀ fuel w, cmdShell.execute (fuel + 1) context w = cmdShell.loop fuel context "" 0 w)
        ∧ (∀ w : World, sinkBytes (w.writeOut (getPrompt context)).2.out = sinkBytes w.out)
        ∧ (∀ fuel lastStatus w e, w.input w.reads = .fail e →
            ∃ w2, cmdShell.loop (fuel + 1) context (getPrompt context) lastStatus w
                = some (.ret lastStatus (some e), w2)
              ∧ sinkBytes w2.out = sinkBytes w.out)
        ∧ (∀ fuel lastStatus w, w.input w.reads = .line "" →
            ∃ w2, cmdShell.loop (fuel + 1) context (getPrompt context) lastStatus w
                = cmdShell.loop fuel context (getPrompt context) lastStatus w2
              ∧ sinkBytes w2.out = sinkBytes w.out)
        ∧ (∀ fuel lastStatus w line, w.input w.reads = .line line → line ≠ "" →
            strings.Fields line = [] →
            ∃ w2, cmdShell.loop (fuel + 1) context (getPrompt context) lastStatus w
                = some (.fault "index out of range [0] with length 0", w2)
              ∧ sinkBytes w2.out = sinkBytes w.out)
        ∧ (∀ fuel lastStatus w line rest, w.input w.reads = .line line →
            strings.Fields line = "exit" :: rest →
            ∃ w2, cmdShell.loop (fuel + 1) context (getPrompt context) lastStatus w
                = some (parseExitStatus ("exit" :: rest) lastStatus, w2)
              ∧ sinkBytes w2.out = sinkBytes w.out)
        ∧ (∀ fuel lastStatus w line a0 rest, w.input w.reads = .line line →
            strings.Fields line = a0 :: rest → a0 ≠ "exit" →
            ∃ w1, sinkBytes w1.out = sinkBytes w.out
              ∧ cmdShell.loop (fuel + 1) context (getPrompt context) lastStatus w
                = match executeProgram fuel { context with args := a0 :: rest } w1 with
                  | none => none
                  | some (.fault msg, w2) => some (.fault msg, w2)
                  | some (.ret status (some e), w2) => some (.ret status (some e), w2)
                  | some (.ret status none, w2) =>
                    cmdShell.loop fuel context (getPrompt context) status w2)
        ∧ (∀ good : World → Prop,
            (∀ w : World, good w →
              good { w with out := w.out ++ [""], reads := w.reads + 1 }) →
            (∀ (fuel : Nat) (c : commandContext) (w : World) (o : Outcome) (w2 : World),
              (∀ name rest, c.args = name :: rest →
                commands name ≠ some .cmdShell ∧ commands name ≠ some .cmdSu) →
              executeProgram fuel c w = some (o, w2) → good w → good w2) →
            ∀ fuel w o w2, cmdShell.execute fuel context w = some (o, w2) →
              good w → good w2)) := by
  obtain ⟨args, pty, user⟩ := context
  refine ⟨?_, ?_, ?_, ?_⟩
  · cases pty <;> by_cases hu : user = "root" <;> simp [getPrompt, hu]
  · cases pty <;> by_cases hu : user = "root" <;> simp [getPrompt, hu]
  · cases pty <;> by_cases hu : user = "root" <;> simp [getPrompt, hu]
  · intro hpty
    have hpty2 : pty = false := hpty
    subst hpty2
    have hp : getPrompt ⟨args, false, user⟩ = "" := rfl
    rw [hp]
    refine ⟨fun fuel w => rfl, fun (w : World) => sinkBytes_append_empty w.out, ?_, ?_, ?_, ?_,
      ?_, ?_⟩
    · intro fuel lastStatus w e hread
      exact ⟨_, loop_read_fail fuel _ "" lastStatus w e hread, sinkBytes_append_empty w.out⟩
    · intro fuel lastStatus w hread
      exact ⟨_, loop_empty_line fuel _ "" lastStatus w hread, sinkBytes_append_empty w.out⟩
    · intro fuel lastStatus w line hread hne hf
      exact ⟨_, loop_no_field fuel _ "" lastStatus w line hread hne hf,
        sinkBytes_append_empty w.out⟩
    · intro fuel lastStatus w line rest hread hargs
      exact ⟨_, loop_exit fuel _ "" lastStatus w line "exit" rest hread hargs rfl,
        sinkBytes_append_empty w.out⟩
    · intro fuel lastStatus w line a0 rest hread hargs h0
      exact ⟨_, sinkBytes_append_empty w.out,
        loop_dispatch fuel _ "" lastStatus w line a0 rest hread hargs h0⟩
    · intro good hturn hleaf fuel w o w2 h hg
      exact (shell_without_pty_keeps good hturn hleaf fuel).2.1 ⟨args, false, user⟩ w o w2 rfl
        h hg

/-- C11 on a session without a pseudo-terminal: the prompt is empty, the shell runs its loop
with it, and of the lines `echo hi` and `exit` the output sink receives what `echo` writes. -/
theorem C11_prompt_witness :
    getPrompt ⟨["sh"], false, "alice"⟩ = ""
    ∧ (∀ fuel w, cmdShell.execute (fuel + 1) ⟨["sh"], false, "alice"⟩ w
        = cmdShell.loop fuel ⟨["sh"], false, "alice"⟩ "" 0 w)
    ∧ (∃ w2, cmdShell.execute 5 ⟨["sh"], false, "alice"⟩ (World.start ["echo hi", "exit"])
          = some (.ret 0 none, w2)
        ∧ sinkBytes w2.out = "hi\n") :=
  ⟨(C11_prompt ⟨["sh"], false, "alice"⟩).2.2.1.mpr rfl,
    ((C11_prompt ⟨["sh"], false, "alice"⟩).2.2.2 rfl).1,
    ⟨_, rfl, by decide⟩⟩

/-- C12: when a read made by the shell loop itself fails with `e`, the loop returns at once with
`e` and its last status, after the prompt of that turn and with that one read made; the last
status is 0 when the shell starts and, after a command line was dispatched and returned a nil
error, the status that command returned. -/
theorem C12_read_error (context : commandContext) (w : World) (e : GoError)
    (hread : w.input w.reads = .fail e) :
    (∀ fuel prompt lastStatus,
        cmdShell.loop (fuel + 1) context prompt lastStatus w
          = some (.ret lastStatus (some e),
              { w with out := w.out ++ [prompt], reads := w.reads + 1 }))
    ∧ (∀ fuel,
        cmdShell.execute (fuel + 2) context w
          = some (.ret 0 (some e),
              { w with out := w.out ++ [getPrompt context], reads := w.reads + 1 }))
    ∧ (∀ fuel prompt lastStatus w0 line a0 rest status,
        w0.input w0.reads = .line line → strings.Fields line = a0 :: rest → a0 ≠ "exit" →
        executeProgram (fuel + 1) { context with args := a0 :: rest }
            { w0 with out := w0.out ++ [prompt], reads := w0.reads + 1 }
          = some (.ret status none, w) →
        cmdShell.loop (fuel + 2) context prompt lastStatus w0
          = some (.ret status (some e),
              { w with out := w.out ++ [prompt], reads := w.reads + 1 })) := by
  refine ⟨fun fuel prompt lastStatus => loop_read_fail fuel context prompt lastStatus w e hread,
    ?_, ?_⟩
  · intro fuel
    rw [cmdShell.execute]
    exact loop_read_fail fuel context _ 0 w e hread
  · intro fuel prompt lastStatus w0 line a0 rest status hline hargs h0 hrun
    rw [loop_dispatch (fuel + 1) context prompt lastStatus w0 line a0 rest hline hargs h0, hrun]
    exact loop_read_fail fuel context prompt status w e hread

/-- C12 on a session whose first read fails, and on the session `false` followed by a failed
read, which returns status 1 with the read error. -/
theorem C12_read_error_witness :
    cmdShell.execute 2 ⟨["sh"], true, "alice"⟩ (World.start [])
        = some (.ret 0 (some "EOF"), { World.start [] with out := ["$ "], reads := 1 })
    ∧ cmdShell.loop 2 ⟨["sh"], true, "alice"⟩ "$ " 0 (World.start ["false"])
        = some (.ret 1 (some "EOF"),
            { World.start ["false"] with out := ["$ ", "$ "], reads := 2 }) :=
  ⟨(C12_read_error ⟨["sh"], true, "alice"⟩ (World.start []) "EOF" rfl).2.1 0,
   (C12_read_error ⟨["sh"], true, "alice"⟩
      { World.start ["false"] with out := ["$ "], reads := 1 } "EOF" rfl).2.2
      0 "$ " 0 (World.start ["false"]) "false" "false" [] 1 rfl (by decide) (by decide) rfl⟩

/-! ## Auxiliary facts on request handling -/

/-- The four bytes of a number below 2^32 decode to that number. -/
theorem Uint32_appendU32 (n : Nat) (h : n < 2 ^ 32) :
    ∃ b0 b1 b2 b3, ssh.appendU32 n = [b0, b1, b2, b3]
      ∧ binary.BigEndian.Uint32 b0 b1 b2 b3 = n := by
  refine ⟨_, _, _, _, rfl, ?_⟩
  simp only [binary.BigEndian.Uint32, Fin.ofNat, Fin.val_mk]
  omega

/-- A request of an unregistered type has no decoding. -/
theorem decode_unregistered (request : Request)
    (h : request.type ∉ ["tcpip-forward", "cancel-tcpip-forward", "no-more-sessions@openssh.com"]) :
    globalRequestPayloads request.type = none := by
  simp only [List.mem_cons, List.mem_singleton, List.not_mem_nil, or_false, not_or] at h
  simp [globalRequestPayloads, h.1, h.2.1, h.2.2]

/-- Dispatch of a request whose type has no parser. -/
theorem handle_unregistered (request : Request) (context : connContext) (env : Env)
    (h : globalRequestPayloads request.type = none) :
    handleGlobalRequest request context env
      = if request.WantReply then
          (env.replyFail env.replies.length, context,
            { env with
                metrics := fun l => if l = "unknown" then env.metrics l + 1 else env.metrics l,
                warnings := env.warnings ++ ["Unsupported global request type " ++ request.type],
                replies := env.replies ++ [(false, none)] })
        else
          (none, context,
            { env with
                metrics := fun l => if l = "unknown" then env.metrics l + 1 else env.metrics l,
                warnings := env.warnings ++
                  ["Unsupported global request type " ++ request.type] }) := by
  simp only [handleGlobalRequest, h, Env.inc, Env.warn, Env.reply]

/-- Dispatch of a request whose payload does not decode. -/
theorem handle_decode_error (request : Request) (context : connContext) (env : Env)
    (e : GoError) (h : request.decode = some (.error e)) :
    handleGlobalRequest request context env = (some e, context, env.inc request.type) := by
  simp only [Request.decode] at h
  cases hp : globalRequestPayloads request.type with
  | none => simp [hp] at h
  | some parser =>
    simp only [hp, Option.map_some', Option.some.injEq] at h
    simp only [handleGlobalRequest, hp, h]

/-- Computing the reply payload leaves the counters, the warnings and the replies alone. -/
theorem payload_reply_frame (payload : globalRequestPayload) (context : connContext) (env : Env) :
    (payload.reply context env).2.replies = env.replies
    ∧ (payload.reply context env).2.replyFail = env.replyFail
    ∧ (payload.reply context env).2.metrics = env.metrics
    ∧ (payload.reply context env).2.warnings = env.warnings := by
  cases payload with
  | tcpipRequest request =>
    simp only [globalRequestPayload.reply, tcpipRequest.reply]
    split <;> simp [Env.Intn]
  | cancelTCPIPRequest request => simp [globalRequestPayload.reply, cancelTCPIPRequest.reply]
  | noMoreSessionsRequest => simp [globalRequestPayload.reply]

/-- The reply payload and the log entry do not depend on the connection context. -/
theorem payload_context_free (payload : globalRequestPayload) (c1 c2 : connContext) (env : Env) :
    payload.reply c1 env = payload.reply c2 env ∧ payload.logEntry c1 = payload.logEntry c2 := by
  cases payload <;> exact ⟨rfl, rfl⟩

/-- The connection context after a payload was decoded: the flag is set by a no-more-sessions
payload and kept by the others. -/
theorem context_after_decode (payload : globalRequestPayload) (context : connContext) :
    (match payload with
      | .noMoreSessionsRequest => { context with noMoreSessions := true }
      | _ => context)
      = { context with
            noMoreSessions := context.noMoreSessions || payload.isNoMoreSessions } := by
  cases payload <;> simp [globalRequestPayload.isNoMoreSessions]

/-- Dispatch of a request whose payload decodes, when no reply is wanted. -/
theorem handle_decoded_noreply (request : Request) (context : connContext) (env : Env)
    (payload : globalRequestPayload) (h : request.decode = some (.ok payload))
    (hw : request.WantReply = false) :
    handleGlobalRequest request context env
      = (none,
          { context with
              noMoreSessions := context.noMoreSessions || payload.isNoMoreSessions,
              log := context.log ++ [payload.logEntry context] },
          env.inc request.type) := by
  simp only [Request.decode] at h
  cases hp : globalRequestPayloads request.type with
  | none => simp [hp] at h
  | some parser =>
    simp only [hp, Option.map_some', Option.some.injEq] at h
    simp only [handleGlobalRequest, hp, h, hw, context_after_decode, connContext.logEvent]
    simp [(payload_context_free payload _ context env).2]

/-- Dispatch of a request whose payload decodes, when a reply is wanted: the result follows the
outcome of sending the reply. -/
theorem handle_decoded_reply (request : Request) (context : connContext) (env : Env)
    (payload : globalRequestPayload) (h : request.decode = some (.ok payload))
    (hw : request.WantReply = true) :
    (handleGlobalRequest request context env).1 = env.replyFail env.replies.length
    ∧ (handleGlobalRequest request context env).2.1
      = { context with
            noMoreSessions := context.noMoreSessions || payload.isNoMoreSessions,
            log := if env.replyFail env.replies.length = none
              then context.log ++ [payload.logEntry context] else context.log }
    ∧ (handleGlobalRequest request context env).2.2.replies
      = env.replies ++ [(true, (payload.reply context (env.inc request.type)).1)] := by
  simp only [Request.decode] at h
  cases hp : globalRequestPayloads request.type with
  | none => simp [hp] at h
  | some parser =>
    simp only [hp, Option.map_some', Option.some.injEq] at h
    obtain ⟨f1, f2, -, -⟩ := payload_reply_frame payload
      { context with
          noMoreSessions := context.noMoreSessions || payload.isNoMoreSessions }
      (env.inc request.type)
    have f3 : (env.inc request.type).replies = env.replies := rfl
    have f4 : (env.inc request.type).replyFail = env.replyFail := rfl
    rw [f3] at f1
    rw [f4] at f2
    simp only [handleGlobalRequest, hp, h, hw, context_after_decode, Env.reply, if_true, f1, f2,
      connContext.logEvent]
    cases hr : env.replyFail env.replies.length with
    | none =>
      simp [(payload_context_free payload _ context (env.inc request.type)).1,
        (payload_context_free payload _ context env).2]
    | some err =>
      simp [(payload_context_free payload _ context (env.inc request.type)).1]

/-- Decoding of a no-more-sessions request: only the empty payload is accepted. -/
theorem decode_noMoreSessions (wantReply : Bool) (payload : List Byte) :
    Request.decode ⟨"no-more-sessions@openssh.com", wantReply, payload⟩
      = some (if payload.length ≠ 0 then .error "invalid request payload"
          else .ok .noMoreSessionsRequest) := by
  simp [Request.decode, globalRequestPayloads]

/-- A decoded payload is a no-more-sessions payload exactly for the no-more-sessions type. -/
theorem decode_isNoMoreSessions (request : Request) (payload : globalRequestPayload)
    (h : request.decode = some (.ok payload)) :
    payload.isNoMoreSessions = decide (request.type = "no-more-sessions@openssh.com") := by
  obtain ⟨type, wantReply, data⟩ := request
  simp only [Request.decode, globalRequestPayloads] at h
  by_cases h1 : type = "tcpip-forward"
  · subst h1
    simp only [if_true, Option.map_some', Option.some.injEq] at h
    split at h
    · exact Except.noConfusion h
    · have := Except.ok.inj h
      subst this
      simp [globalRequestPayload.isNoMoreSessions]
  · by_cases h2 : type = "cancel-tcpip-forward"
    · subst h2
      simp only [h1, if_false, if_true, Option.map_some', Option.some.injEq] at h
      split at h
      · exact Except.noConfusion h
      · have := Except.ok.inj h
        subst this
        simp [globalRequestPayload.isNoMoreSessions]
    · by_cases h3 : type = "no-more-sessions@openssh.com"
      · subst h3
        simp only [h1, h2, if_false, if_true, Option.map_some', Option.some.injEq] at h
        split at h
        · exact Except.noConfusion h
        · have := Except.ok.inj h
          subst this
          simp [globalRequestPayload.isNoMoreSessions]
      · simp [h1, h2, h3] at h

/-- The no-more-sessions flag after a dispatch, by the outcome of decoding. -/
theorem handle_flag (request : Request) (context : connContext) (env : Env) :
    (handleGlobalRequest request context env).2.1.noMoreSessions
      = match request.decode with
        | some (.ok payload) => context.noMoreSessions || payload.isNoMoreSessions
        | _ => context.noMoreSessions := by
  cases h : request.decode with
  | none =>
    have hp : globalRequestPayloads request.type = none := by
      simpa [Request.decode] using h
    rw [handle_unregistered request context env hp]
    split <;> rfl
  | some r =>
    cases r with
    | error e => rw [handle_decode_error request context env e h]
    | ok payload =>
      cases hw : request.WantReply with
      | false => rw [handle_decoded_noreply request context env payload h hw]
      | true => rw [(handle_decoded_reply request context env payload h hw).2.1]

/-! ## Claims C13 to C18 -/

/-- C13: for a forward request with a nonzero port the reply payload is absent; with port zero it
is exactly four bytes, the big-endian encoding of `r + 1024` where `r` is the pseudo-random draw
in `[0, 64512)`, so the port lies in `[1024, 65536)` for every draw; port 5000 yields no
payload. -/
theorem C13_forward_reply (request : tcpipRequest) (context : connContext) (env : Env) :
    (request.Port ≠ 0 → (request.reply context env).1 = none)
    ∧ (request.Port = 0 →
        ∃ b0 b1 b2 b3, (request.reply context env).1 = some [b0, b1, b2, b3]
          ∧ binary.BigEndian.Uint32 b0 b1 b2 b3 = (env.Intn (65536 - 1024)).1 + 1024)
    ∧ (env.Intn (65536 - 1024)).1 < 64512
    ∧ 1024 ≤ (env.Intn (65536 - 1024)).1 + 1024
    ∧ (env.Intn (65536 - 1024)).1 + 1024 < 65536
    ∧ (tcpipRequest.reply ⟨request.Address, 5000⟩ context env).1 = none := by
  have hr : (env.Intn (65536 - 1024)).1 < 64512 := Nat.mod_lt _ (by norm_num)
  refine ⟨?_, ?_, hr, by omega, by omega, by simp [tcpipRequest.reply]⟩
  · intro h
    simp [tcpipRequest.reply, h]
  · intro h
    obtain ⟨b0, b1, b2, b3, hb, hv⟩ :=
      Uint32_appendU32 ((env.Intn (65536 - 1024)).1 + 1024) (by omega)
    refine ⟨b0, b1, b2, b3, ?_, hv⟩
    have hmod : ((env.Intn (65536 - 1024)).1 + 1024) % 2 ^ 32
        = (env.Intn (65536 - 1024)).1 + 1024 := Nat.mod_eq_of_lt (by omega)
    simp only [tcpipRequest.reply, h, ne_eq, not_true_eq_false, if_false, ssh.Marshal, hmod, hb]

/-- C13 on a request with port 0 at the start: four bytes that encode a port from 1024 on. -/
theorem C13_forward_reply_witness :
    ∃ b0 b1 b2 b3,
      (tcpipRequest.reply ⟨"localhost", 0⟩ ⟨false, "alice", []⟩ (Env.start (fun _ => 0))).1
          = some [b0, b1, b2, b3]
        ∧ binary.BigEndian.Uint32 b0 b1 b2 b3
          = ((Env.start (fun _ => 0)).Intn (65536 - 1024)).1 + 1024 :=
  (C13_forward_reply ⟨"localhost", 0⟩ ⟨false, "alice", []⟩ (Env.start (fun _ => 0))).2.1 rfl

/-- C14: the no-more-sessions flag is monotonic under `handleGlobalRequest`: a flag that is set
stays set; a no-more-sessions request with an empty payload leaves it set whatever it was, also
when delivered again; a request of any other type leaves it as it was. -/
theorem C14_flag_monotonic (request : Request) (context : connContext) (env : Env) :
    (context.noMoreSessions = true →
      (handleGlobalRequest request context env).2.1.noMoreSessions = true)
    ∧ (request.type = "no-more-sessions@openssh.com" → request.Payload = [] →
        (handleGlobalRequest request context env).2.1.noMoreSessions = true
        ∧ ∀ env2, (handleGlobalRequest request
            (handleGlobalRequest request context env).2.1 env2).2.1.noMoreSessions = true)
    ∧ (request.type ≠ "no-more-sessions@openssh.com" →
        (handleGlobalRequest request context env).2.1.noMoreSessions
          = context.noMoreSessions) := by
  have hset : ∀ (c : connContext) (e : Env), request.type = "no-more-sessions@openssh.com" →
      request.Payload = [] → (handleGlobalRequest request c e).2.1.noMoreSessions = true := by
    intro c e ht hp
    obtain ⟨type, wantReply, data⟩ := request
    simp only at ht hp
    subst ht hp
    rw [handle_flag, decode_noMoreSessions]
    simp [globalRequestPayload.isNoMoreSessions]
  refine ⟨?_, fun ht hp => ⟨hset context env ht hp, fun env2 => hset _ env2 ht hp⟩, ?_⟩
  · intro hc
    rw [handle_flag]
    split <;> simp [hc]
  · intro ht
    rw [handle_flag]
    split
    · rename_i payload hd
      rw [decode_isNoMoreSessions request payload hd]
      simp [ht]
    · rfl

/-- C14 on a connection whose flag is set: a `tcpip-forward` request leaves it set. -/
theorem C14_flag_monotonic_witness :
    (handleGlobalRequest ⟨"tcpip-forward", true, []⟩ ⟨true, "alice", []⟩
      (Env.start (fun _ => 0))).2.1.noMoreSessions = true :=
  (C14_flag_monotonic ⟨"tcpip-forward", true, []⟩ ⟨true, "alice", []⟩
    (Env.start (fun _ => 0))).1 rfl

/-- C15: for a request whose type is none of the three registered type strings, the dispatcher
adds one to the counter labelled "unknown" and to no other counter, prints one warning, makes
exactly one `Reply(false, nil)` call when a reply is wanted and none otherwise, hands nothing to
the log sink, leaves the connection context as it was, and returns the error of that reply
call, or nil when no reply is wanted. -/
theorem C15_unknown_type (request : Request) (context : connContext) (env : Env)
    (h : request.type ∉
      ["tcpip-forward", "cancel-tcpip-forward", "no-more-sessions@openssh.com"]) :
    handleGlobalRequest request context env
      = if request.WantReply then
          (env.replyFail env.replies.length, context,
            { env with
                metrics := fun l => if l = "unknown" then env.metrics l + 1 else env.metrics l,
                warnings := env.warnings ++ ["Unsupported global request type " ++ request.type],
                replies := env.replies ++ [(false, none)] })
        else
          (none, context,
            { env with
                metrics := fun l => if l = "unknown" then env.metrics l + 1 else env.metrics l,
                warnings := env.warnings ++
                  ["Unsupported global request type " ++ request.type] }) :=
  handle_unregistered request context env (decode_unregistered request h)

/-- C15 on a keep-alive request that wants a reply. -/
theorem C15_unknown_type_witness :
    handleGlobalRequest ⟨"keepalive@openssh.com", true, []⟩ ⟨false, "alice", []⟩
        (Env.start (fun _ => 0))
      = (none, ⟨false, "alice", []⟩,
          { Env.start (fun _ => 0) with
              metrics := fun l => if l = "unknown" then 0 + 1 else 0,
              warnings := ["Unsupported global request type keepalive@openssh.com"],
              replies := [(false, none)] }) :=
  C15_unknown_type ⟨"keepalive@openssh.com", true, []⟩ ⟨false, "alice", []⟩
    (Env.start (fun _ => 0)) (by decide)

/-- C16: for a request of a registered type whose payload fails to decode with `e`, the
dispatcher returns `e`, leaves the connection context as it was (flag and log), sends no reply
and changes nothing but the counter of the request type; a no-more-sessions request fails to
decode exactly when its payload is not empty. -/
theorem C16_decode_error (request : Request) (context : connContext) (env : Env) (e : GoError)
    (h : request.decode = some (.error e)) :
    handleGlobalRequest request context env = (some e, context, env.inc request.type)
    ∧ (env.inc request.type).replies = env.replies
    ∧ ∀ wantReply payload,
        (∃ e2, Request.decode ⟨"no-more-sessions@openssh.com", wantReply, payload⟩
            = some (.error e2)) ↔ payload ≠ [] := by
  refine ⟨handle_decode_error request context env e h, rfl, ?_⟩
  intro wantReply payload
  rw [decode_noMoreSessions]
  cases payload with
  | nil => simp
  | cons b bs => simp

/-- C16 on a no-more-sessions request with a one-byte payload that wants a reply. -/
theorem C16_decode_error_witness :
    handleGlobalRequest ⟨"no-more-sessions@openssh.com", true, [7]⟩ ⟨false, "alice", []⟩
        (Env.start (fun _ => 0))
      = (some "invalid request payload", ⟨false, "alice", []⟩,
          (Env.start (fun _ => 0)).inc "no-more-sessions@openssh.com") :=
  (C16_decode_error ⟨"no-more-sessions@openssh.com", true, [7]⟩ ⟨false, "alice", []⟩
    (Env.start (fun _ => 0)) "invalid request payload" rfl).1

/-- C17, amended: for a request of a registered type whose payload decodes, the dispatcher hands
exactly one log entry, the one of the decoded variant, to the log sink of the connection and
returns nil when no reply is wanted or the reply is sent; when sending the reply fails it
returns that error and hands nothing to the log sink. -/
theorem C17_log_entry (request : Request) (context : connContext) (env : Env)
    (payload : globalRequestPayload) (h : request.decode = some (.ok payload)) :
    ((request.WantReply = false ∨ env.replyFail env.replies.length = none) →
        (handleGlobalRequest request context env).1 = none
        ∧ (handleGlobalRequest request context env).2.1.log
          = context.log ++ [payload.logEntry context])
    ∧ (∀ err, request.WantReply = true → env.replyFail env.replies.length = some err →
        (handleGlobalRequest request context env).1 = some err
        ∧ (handleGlobalRequest request context env).2.1.log = context.log)
    ∧ (∀ r, payload = .tcpipRequest r → payload.logEntry context
        = .tcpipForwardLog (net.JoinHostPort r.Address (strconv.Itoa r.Port)))
    ∧ (∀ r, payload = .cancelTCPIPRequest r → payload.logEntry context
        = .cancelTCPIPForwardLog (net.JoinHostPort r.Address (strconv.Itoa r.Port)))
    ∧ (payload = .noMoreSessionsRequest → payload.logEntry context = .noMoreSessionsLog) := by
  refine ⟨?_, ?_, ?_, ?_, ?_⟩
  · intro hcase
    cases hw : request.WantReply with
    | false =>
      rw [handle_decoded_noreply request context env payload h hw]
      exact ⟨rfl, rfl⟩
    | true =>
      have hr : env.replyFail env.replies.length = none := by
        rcases hcase with hf | hr
        · rw [hw] at hf; exact Bool.noConfusion hf
        · exact hr
      obtain ⟨h1, h2, -⟩ := handle_decoded_reply request context env payload h hw
      rw [h1, h2]
      simp [hr]
  · intro err hw hr
    obtain ⟨h1, h2, -⟩ := handle_decoded_reply request context env payload h hw
    rw [h1, h2]
    simp [hr]
  · intro r hp
    subst hp
    rfl
  · intro r hp
    subst hp
    rfl
  · intro hp
    subst hp
    rfl

/-- C17, amended, on a forward request for `AB`, port 0, that wants a reply which is sent. -/
theorem C17_log_entry_witness :
    (handleGlobalRequest ⟨"tcpip-forward", true, [0, 0, 0, 2, 65, 66, 0, 0, 0, 0]⟩
        ⟨false, "alice", []⟩ (Env.start (fun _ => 0))).1 = none
    ∧ (handleGlobalRequest ⟨"tcpip-forward", true, [0, 0, 0, 2, 65, 66, 0, 0, 0, 0]⟩
        ⟨false, "alice", []⟩ (Env.start (fun _ => 0))).2.1.log
      = [.tcpipForwardLog "AB:0"] :=
  (C17_log_entry ⟨"tcpip-forward", true, [0, 0, 0, 2, 65, 66, 0, 0, 0, 0]⟩
    ⟨false, "alice", []⟩ (Env.start (fun _ => 0)) (.tcpipRequest ⟨"AB", 0⟩) rfl).1 (Or.inr rfl)

/-- C17 as stated fails when sending the reply fails: a no-more-sessions request with an empty
payload decodes, but with a reply that cannot be sent the dispatcher returns the error of the
`Reply` call and hands no entry to the log sink, although the flag is set. -/
theorem C17_counterexample_failed_reply :
    Request.decode ⟨"no-more-sessions@openssh.com", true, []⟩ = some (.ok .noMoreSessionsRequest)
    ∧ handleGlobalRequest ⟨"no-more-sessions@openssh.com", true, []⟩ ⟨false, "alice", []⟩
        { Env.start (fun _ => 0) with replyFail := fun _ => some "EOF" }
      = (some "EOF", ⟨true, "alice", []⟩,
          { (Env.start (fun _ => 0)).inc "no-more-sessions@openssh.com" with
              replyFail := fun _ => some "EOF", replies := [(true, none)] }) :=
  ⟨rfl, rfl⟩

/-- C18: the keys of the command registry are exactly `sh`, `true`, `false`, `echo`, `cat`, `su`,
`ifconfig` and `uname`, each bound to its command; every other name, `exit` among them, is
absent, so `executeProgram` on `["exit"]` returns status 127 as for any unknown command. -/
theorem C18_registry_keys :
    (∀ name, (commands name).isSome = true ↔
      name ∈ ["sh", "true", "false", "echo", "cat", "su", "ifconfig", "uname"])
    ∧ (∀ name, commands name = none ↔
      name ∉ ["sh", "true", "false", "echo", "cat", "su", "ifconfig", "uname"])
    ∧ commands "sh" = some .cmdShell ∧ commands "true" = some .cmdTrue
    ∧ commands "false" = some .cmdFalse ∧ commands "echo" = some .cmdEcho
    ∧ commands "cat" = some .cmdCat ∧ commands "su" = some .cmdSu
    ∧ commands "ifconfig" = some .cmdIfconfig ∧ commands "uname" = some .cmdUname
    ∧ commands "exit" = none
    ∧ ∀ fuel pty user w,
        executeProgram (fuel + 1) ⟨["exit"], pty, user⟩ w
          = some (.ret 127 none, { w with err := w.err ++ ["exit: command not found\n"] }) := by
  refine ⟨commands_isSome_iff, ?_, by decide, by decide, by decide, by decide, by decide,
    by decide, by decide, by decide, by decide, ?_⟩
  · intro name
    rw [← commands_isSome_iff]
    cases commands name <;> simp
  · intro fuel pty user w
    exact executeProgram_unknown fuel ⟨["exit"], pty, user⟩ w "exit" [] rfl (by decide)

/-! ## Auxiliary facts on termination -/

/-- The `exit` builtin always returns a status with a nil error. -/
theorem parseExitStatus_ret (args : List String) (lastStatus : Nat) :
    ∃ s, parseExitStatus args lastStatus = .ret s none := by
  unfold parseExitStatus
  split
  · split
    · exact ⟨_, rfl⟩
    · exact ⟨_, rfl⟩
  · exact ⟨_, rfl⟩

/-- The file loop of `cat` returns without reading. -/
theorem cmdCat_files_returns (prog : String) (files : List String) (w : World) :
    ∃ s e w2, cmdCat.files prog files w = (.ret s e, w2)
      ∧ w2.reads = w.reads ∧ w2.input = w.input := by
  induction files generalizing w with
  | nil => exact ⟨1, none, w, rfl, rfl, rfl⟩
  | cons file rest ih =>
    by_cases hf : file = "/proc/cpuinfo"
    · exact ⟨0, (w.writeOut CpuInfo).1, (w.writeOut CpuInfo).2,
        by simp only [cmdCat.files, hf, if_true], rfl, rfl⟩
    · cases hw : w.errFail w.err.length with
      | some e =>
        refine ⟨0, some e,
          (w.writeErr (prog ++ ": " ++ file ++ ": No such file or directory\n")).2, ?_, rfl, rfl⟩
        simp only [cmdCat.files, hf, if_false, World.writeErr, hw]
      | none =>
        obtain ⟨s, e, w2, h1, h2, h3⟩ := ih (w.writeErr
          (prog ++ ": " ++ file ++ ": No such file or directory\n")).2
        refine ⟨s, e, w2, ?_, h2, h3⟩
        rw [← h1]
        simp only [cmdCat.files, hf, if_false, World.writeErr, hw]

/-- The line loop of `cat` returns once the input fails: with the input failing from read `n`
on, fuel for the remaining reads and one more suffices. -/
theorem cmdCat_lines_returns (n : Nat) (numberLine : Bool) (rem : Nat) :
    ∀ (w : World) (fuel lineNumber : Nat),
      (∀ k, n ≤ k → ∃ e, w.input k = .fail e) → n - w.reads ≤ rem → rem + 1 ≤ fuel →
      ∃ e w2, cmdCat.lines numberLine fuel lineNumber w = some (.ret 0 e, w2)
        ∧ w.reads < w2.reads ∧ w2.input = w.input := by
  induction rem with
  | zero =>
    intro w fuel lineNumber hend hrem hfuel
    obtain ⟨f, rfl⟩ : ∃ f, fuel = f + 1 := ⟨fuel - 1, by omega⟩
    obtain ⟨e, he⟩ := hend w.reads (by omega)
    exact ⟨some e, _, cmdCat_lines_fail numberLine f lineNumber w e he, by simp, rfl⟩
  | succ rem ih =>
    intro w fuel lineNumber hend hrem hfuel
    obtain ⟨f, rfl⟩ : ∃ f, fuel = f + 1 := ⟨fuel - 1, by omega⟩
    cases hr : w.input w.reads with
    | fail e =>
      exact ⟨some e, _, cmdCat_lines_fail numberLine f lineNumber w e hr, by simp, rfl⟩
    | line a =>
      cases hw : w.outFail w.out.length with
      | some e =>
        refine ⟨some e, (w.readLine.2.writeOut (catRecord numberLine lineNumber a)).2, ?_,
          by simp [World.readLine, World.writeOut], rfl⟩
        cases numberLine <;>
          simp [cmdCat.lines, World.readLine, hr, World.writeOut, hw, catRecord]
      | none =>
        rw [cmdCat_lines_line numberLine f lineNumber w a hr hw]
        obtain ⟨e, w2, h1, h2, h3⟩ := ih
          { w with reads := w.reads + 1, out := w.out ++ [catRecord numberLine lineNumber a] }
          f (if numberLine then lineNumber + 1 else lineNumber) hend
          (by simp only; omega) (by omega)
        exact ⟨e, w2, h1, by simp only at h2; omega, h3⟩

/-- A line with a character that is not a space has a field. -/
theorem fieldsFrom_ne_nil (cs cur : List Char)
    (h : cur ≠ [] ∨ ∃ c ∈ cs, unicode.IsSpace c = false) :
    strings.fieldsFrom cs cur ≠ [] := by
  induction cs generalizing cur with
  | nil =>
    rcases h with h | ⟨c, hc, -⟩
    · cases cur with
      | nil => exact absurd rfl h
      | cons a as => simp [strings.fieldsFrom]
    · simp at hc
  | cons c cs ih =>
    by_cases hsp : unicode.IsSpace c = true
    · cases cur with
      | nil =>
        simp only [strings.fieldsFrom, hsp, if_true, List.isEmpty_nil]
        apply ih
        rcases h with h | ⟨x, hx, hxs⟩
        · exact absurd rfl h
        · rcases List.mem_cons.1 hx with rfl | hx
          · rw [hsp] at hxs; exact Bool.noConfusion hxs
          · exact Or.inr ⟨x, hx, hxs⟩
      | cons a as => simp [strings.fieldsFrom, hsp]
    · simp only [strings.fieldsFrom, hsp]
      exact ih _ (Or.inl (by simp))

/-- The command `uname` returns status 0 without reading. -/
theorem cmdUname_returns (context : commandContext) (w : World) :
    ∃ e w2, cmdUname.execute context w = (.ret 0 e, w2)
      ∧ w2.reads = w.reads ∧ w2.input = w.input :=
  ⟨_, _, rfl, rfl, rfl⟩

/-- Dispatch returns when the shell loop does on the same world: the calls from
`executeProgram` down to the loop of a nested shell cost at most four units of fuel. -/
theorem executeProgram_returns_of_loop (n rem : Nat) (w : World) (context : commandContext)
    (hend : ∀ k, n ≤ k → ∃ e, w.input k = .fail e) (hrem : n - w.reads ≤ rem)
    (hloop : ∀ (c : commandContext) (fuel : Nat) (prompt : String) (lastStatus : Nat),
      5 * rem + 1 ≤ fuel →
      ∃ s e w2, cmdShell.loop fuel c prompt lastStatus w = some (.ret s e, w2)
        ∧ w.reads < w2.reads ∧ w2.input = w.input)
    (fuel : Nat) (hfuel : 5 * rem + 5 ≤ fuel) :
    ∃ s e w2, executeProgram fuel context w = some (.ret s e, w2)
      ∧ w.reads ≤ w2.reads ∧ w2.input = w.input := by
  obtain ⟨f, rfl⟩ : ∃ f, fuel = f + 5 := ⟨fuel - 5, by omega⟩
  have hsh : commands "sh" = some .cmdShell := by decide
  rw [executeProgram]
  cases hargs : context.args with
  | nil => exact ⟨0, none, w, rfl, le_refl _, rfl⟩
  | cons name rest =>
    simp only []
    cases hc : commands name with
    | none => exact ⟨127, none, _, rfl, le_refl _, rfl⟩
    | some cmd =>
      cases cmd with
      | cmdShell =>
        simp only []
        rw [cmdShell.execute]
        obtain ⟨s, e, w2, h1, h2, h3⟩ := hloop context (f + 3) (getPrompt context) 0 (by omega)
        exact ⟨s, e, w2, h1, le_of_lt h2, h3⟩
      | cmdTrue => exact ⟨0, none, w, rfl, le_refl _, rfl⟩
      | cmdFalse => exact ⟨1, none, w, rfl, le_refl _, rfl⟩
      | cmdEcho =>
        refine ⟨0, (w.writeOut (strings.Join rest " " ++ "\n")).1,
          (w.writeOut (strings.Join rest " " ++ "\n")).2, ?_, le_refl _, rfl⟩
        simp only [cmdEcho.execute, hargs]
      | cmdCat =>
        simp only [cmdCat.execute, hargs]
        split
        · obtain ⟨s, e, w2, h1, h2, h3⟩ :=
            cmdCat_files_returns name (cmdCat.scan rest (false, [])).2 w
          exact ⟨s, e, w2, by rw [h1], le_of_eq h2.symm, h3⟩
        · obtain ⟨e, w2, h1, h2, h3⟩ :=
            cmdCat_lines_returns n (cmdCat.scan rest (false, [])).1 rem w (f + 4) 1 hend hrem
              (by omega)
          exact ⟨0, e, w2, h1, le_of_lt h2, h3⟩
      | cmdSu =>
        simp only []
        rw [cmdSu.execute, executeProgram]
        simp only [shellProgram, hsh]
        rw [cmdShell.execute]
        obtain ⟨s, e, w2, h1, h2, h3⟩ := hloop _ (f + 1) _ 0 (by omega)
        exact ⟨s, e, w2, h1, le_of_lt h2, h3⟩
      | cmdIfconfig =>
        exact ⟨0, (w.writeOut (IfconfigOutput ++ "\n")).1,
          (w.writeOut (IfconfigOutput ++ "\n")).2, rfl, le_refl _, rfl⟩
      | cmdUname =>
        obtain ⟨e, w2, h1, h2, h3⟩ := cmdUname_returns context w
        exact ⟨0, e, w2, by rw [← h1], le_of_eq h2.symm, h3⟩

/-- The shell loop returns once the input fails: with the input failing from read `n` on and
no line made of spaces only, five units of fuel per remaining read and one more suffice, and
the loop makes at least one read. -/
theorem loop_returns (n : Nat) (input : Nat → ReadResult)
    (hlines : ∀ k l, input k = .line l → l = "" ∨ ∃ c ∈ l.data, unicode.IsSpace c = false)
    (hend : ∀ k, n ≤ k → ∃ e, input k = .fail e) (rem : Nat) :
    ∀ (w : World), w.input = input → n - w.reads ≤ rem →
      ∀ (c : commandContext) (fuel : Nat) (prompt : String) (lastStatus : Nat),
        5 * rem + 1 ≤ fuel →
        ∃ s e w2, cmdShell.loop fuel c prompt lastStatus w = some (.ret s e, w2)
          ∧ w.reads < w2.reads ∧ w2.input = w.input := by
  induction rem with
  | zero =>
    intro w hw hrem c fuel prompt lastStatus hfuel
    obtain ⟨g, rfl⟩ : ∃ g, fuel = g + 1 := ⟨fuel - 1, by omega⟩
    obtain ⟨e, he⟩ := hend w.reads (by omega)
    rw [← hw] at he
    exact ⟨lastStatus, some e, _, loop_read_fail g c prompt lastStatus w e he, by simp, rfl⟩
  | succ rem ih =>
    intro w hw hrem c fuel prompt lastStatus hfuel
    obtain ⟨g, rfl⟩ : ∃ g, fuel = g + 1 := ⟨fuel - 1, by omega⟩
    cases hr : w.input w.reads with
    | fail e =>
      exact ⟨lastStatus, some e, _, loop_read_fail g c prompt lastStatus w e hr, by simp, rfl⟩
    | line l =>
      have hlt : w.reads < n := by
        by_contra hcon
        obtain ⟨e, he⟩ := hend w.reads (by omega)
        rw [← hw, hr] at he
        exact ReadResult.noConfusion he
      by_cases hl : l = ""
      · subst hl
        rw [loop_empty_line g c prompt lastStatus w hr]
        obtain ⟨s, e, w2, h1, h2, h3⟩ :=
          ih { w with out := w.out ++ [prompt], reads := w.reads + 1 } hw
            (by simp only; omega) c g prompt lastStatus (by omega)
        exact ⟨s, e, w2, h1, by simp only at h2; omega, h3⟩
      · have hfields : strings.Fields l ≠ [] := by
          rcases hlines w.reads l (by rw [← hw]; exact hr) with h | h
          · exact absurd h hl
          · exact fieldsFrom_ne_nil l.data [] (Or.inr h)
        cases hargs : strings.Fields l with
        | nil => exact absurd hargs hfields
        | cons a0 rest =>
          by_cases h0 : a0 = "exit"
          · obtain ⟨s, hs⟩ := parseExitStatus_ret (a0 :: rest) lastStatus
            refine ⟨s, none, { w with out := w.out ++ [prompt], reads := w.reads + 1 }, ?_,
              by simp, rfl⟩
            rw [loop_exit g c prompt lastStatus w l a0 rest hr hargs h0, hs]
          · have hend1 : ∀ k, n ≤ k → ∃ e, w.input k = .fail e := by
              intro k hk
              rw [hw]
              exact hend k hk
            rw [loop_dispatch g c prompt lastStatus w l a0 rest hr hargs h0]
            obtain ⟨s, e, w2, h1, h2, h3⟩ :=
              executeProgram_returns_of_loop n rem
                { w with out := w.out ++ [prompt], reads := w.reads + 1 }
                { c with args := a0 :: rest }
                hend1
                (by simp only; omega)
                (fun c2 fuel2 prompt2 last2 hf2 =>
                  ih { w with out := w.out ++ [prompt], reads := w.reads + 1 } hw
                    (by simp only; omega) c2 fuel2 prompt2 last2 hf2)
                g (by omega)
            rw [h1]
            simp only at h2 h3
            cases e with
            | some err => exact ⟨s, some err, w2, rfl, by omega, h3⟩
            | none =>
              obtain ⟨s3, e3, w3, k1, k2, k3⟩ :=
                ih w2 (by rw [h3, hw]) (by omega) c g prompt s (by omega)
              exact ⟨s3, e3, w3, k1, by omega, by rw [k3, h3]⟩

/-- An input made of a list of lines fails from the end of the list on. -/
theorem stdinOf_fails (ls : List String) (k : Nat) (h : ls.length ≤ k) :
    ∃ e, stdinOf ls k = .fail e := by
  refine ⟨"EOF", ?_⟩
  simp [stdinOf, List.getElem?_eq_none h]

/-- An input made of a list of lines yields lines of the list only. -/
theorem stdinOf_mem (ls : List String) (k : Nat) (l : String) (h : stdinOf ls k = .line l) :
    l ∈ ls := by
  simp only [stdinOf] at h
  cases hk : ls[k]? with
  | none => simp [hk] at h
  | some x =>
    simp only [hk, ReadResult.line.injEq] at h
    subst h
    exact List.getElem?_mem hk

/-! ## Auxiliary facts on the shared input -/

/-- Every world is a later state of itself. -/
theorem later_refl (w : World) : w.later w :=
  ⟨rfl, rfl, rfl, rfl, le_refl _, List.prefix_refl _, List.prefix_refl _⟩

/-- Later states compose. -/
theorem later_trans {w1 w2 w3 : World} (h12 : w1.later w2) (h23 : w2.later w3) :
    w1.later w3 := by
  obtain ⟨a1, a2, a3, a4, a5, a6, a7⟩ := h12
  obtain ⟨b1, b2, b3, b4, b5, b6, b7⟩ := h23
  exact ⟨b1.trans a1, b2.trans a2, b3.trans a3, b4.trans a4, le_trans a5 b5,
    List.IsPrefix.trans a6 b6, List.IsPrefix.trans a7 b7⟩

/-- A read leads to a later state. -/
theorem later_readLine (w : World) : w.later w.readLine.2 :=
  ⟨rfl, rfl, rfl, rfl, Nat.le_succ _, List.prefix_refl _, List.prefix_refl _⟩

/-- A write on the output sink leads to a later state. -/
theorem later_writeOut (w : World) (s : String) : w.later (w.writeOut s).2 :=
  ⟨rfl, rfl, rfl, rfl, le_refl _, List.prefix_append _ _, List.prefix_refl _⟩

/-- A write on the error sink leads to a later state. -/
theorem later_writeErr (w : World) (s : String) : w.later (w.writeErr s).2 :=
  ⟨rfl, rfl, rfl, rfl, le_refl _, List.prefix_refl _, List.prefix_append _ _⟩

/-- The turn of the shell loop up to its read leads to a later state. -/
theorem later_turn (w : World) (prompt : String) :
    w.later { w with out := w.out ++ [prompt], reads := w.reads + 1 } :=
  ⟨rfl, rfl, rfl, rfl, Nat.le_succ _, List.prefix_append _ _, List.prefix_refl _⟩

/-- The file loop of `cat` leads to a later state. -/
theorem later_cmdCat_files (prog : String) (files : List String) (w : World) :
    w.later (cmdCat.files prog files w).2 := by
  induction files generalizing w with
  | nil => exact later_refl w
  | cons file rest ih =>
    by_cases hf : file = "/proc/cpuinfo"
    · simp only [cmdCat.files, hf, if_true]
      exact later_writeOut w CpuInfo
    · simp only [cmdCat.files, hf, if_false]
      split
      · exact later_writeErr w _
      · exact later_trans (later_writeErr w _) (ih _)

/-- The line loop of `cat` leads to a later state. -/
theorem later_cmdCat_lines (numberLine : Bool) (fuel : Nat) :
    ∀ (lineNumber : Nat) (w : World) (o : Outcome) (w2 : World),
      cmdCat.lines numberLine fuel lineNumber w = some (o, w2) → w.later w2 := by
  induction fuel with
  | zero =>
    intro lineNumber w o w2 h
    simp [cmdCat.lines] at h
  | succ fuel ih =>
    intro lineNumber w o w2 h
    cases hr : w.input w.reads with
    | fail e =>
      rw [cmdCat_lines_fail numberLine fuel lineNumber w e hr] at h
      obtain ⟨-, rfl⟩ := Prod.mk.inj (Option.some.inj h)
      exact later_readLine w
    | line a =>
      cases hw : w.outFail w.out.length with
      | some e =>
        have hstep : cmdCat.lines numberLine (fuel + 1) lineNumber w
            = some (.ret 0 (some e),
                (w.readLine.2.writeOut (catRecord numberLine lineNumber a)).2) := by
          cases numberLine <;>
            simp [cmdCat.lines, World.readLine, hr, World.writeOut, hw, catRecord]
        rw [hstep] at h
        obtain ⟨-, rfl⟩ := Prod.mk.inj (Option.some.inj h)
        exact later_trans (later_readLine w) (later_writeOut _ _)
      | none =>
        rw [cmdCat_lines_line numberLine fuel lineNumber w a hr hw] at h
        exact later_trans (later_trans (later_readLine w) (later_writeOut w.readLine.2 _))
          (ih _ _ o w2 h)

/-- Every run leads to a later state of the same session: no command and no shell replaces the
line source or a sink, takes back a read or a write. -/
theorem later_run (fuel : Nat) :
    (∀ (c : commandContext) (w : World) (o : Outcome) (w2 : World),
      executeProgram fuel c w = some (o, w2) → w.later w2)
    ∧ (∀ (c : commandContext) (w : World) (o : Outcome) (w2 : World),
      cmdShell.execute fuel c w = some (o, w2) → w.later w2)
    ∧ (∀ (c : commandContext) (prompt : String) (lastStatus : Nat) (w : World) (o : Outcome)
        (w2 : World),
      cmdShell.loop fuel c prompt lastStatus w = some (o, w2) → w.later w2)
    ∧ (∀ (c : commandContext) (w : World) (o : Outcome) (w2 : World),
      cmdSu.execute fuel c w = some (o, w2) → w.later w2) := by
  induction fuel with
  | zero =>
    refine ⟨?_, ?_, ?_, ?_⟩
    · intro c w o w2 h
      simp [executeProgram] at h
    · intro c w o w2 h
      simp [cmdShell.execute] at h
    · intro c prompt lastStatus w o w2 h
      simp [cmdShell.loop] at h
    · intro c w o w2 h
      simp [cmdSu.execute] at h
  | succ fuel ih =>
    obtain ⟨ihExec, ihShell, ihLoop, ihSu⟩ := ih
    refine ⟨?_, ?_, ?_, ?_⟩
    · intro c w o w2 h
      rw [executeProgram] at h
      cases hargs : c.args with
      | nil =>
        simp only [hargs] at h
        obtain ⟨-, rfl⟩ := Prod.mk.inj (Option.some.inj h)
        exact later_refl w
      | cons name rest =>
        simp only [hargs] at h
        cases hc : commands name with
        | none =>
          simp only [hc] at h
          obtain ⟨-, rfl⟩ := Prod.mk.inj (Option.some.inj h)
          exact later_writeErr w _
        | some cmd =>
          cases cmd with
          | cmdShell =>
            simp only [hc] at h
            exact ihShell c w o w2 h
          | cmdTrue =>
            simp only [hc, cmdTrue.execute] at h
            obtain ⟨-, rfl⟩ := Prod.mk.inj (Option.some.inj h)
            exact later_refl w
          | cmdFalse =>
            simp only [hc, cmdFalse.execute] at h
            obtain ⟨-, rfl⟩ := Prod.mk.inj (Option.some.inj h)
            exact later_refl w
          | cmdEcho =>
            simp only [hc, cmdEcho.execute, hargs] at h
            obtain ⟨-, rfl⟩ := Prod.mk.inj (Option.some.inj h)
            exact later_writeOut w _
          | cmdCat =>
            simp only [hc, cmdCat.execute, hargs] at h
            split at h
            · obtain ⟨-, rfl⟩ := Prod.ext_iff.mp (Option.some.inj h)
              exact later_cmdCat_files _ _ w
            · exact later_cmdCat_lines _ _ _ w o w2 h
          | cmdSu =>
            simp only [hc] at h
            exact ihSu c w o w2 h
          | cmdIfconfig =>
            simp only [hc, cmdIfconfig.execute] at h
            obtain ⟨-, rfl⟩ := Prod.mk.inj (Option.some.inj h)
            exact later_writeOut w _
          | cmdUname =>
            simp only [hc, cmdUname.execute] at h
            obtain ⟨-, rfl⟩ := Prod.mk.inj (Option.some.inj h)
            exact ⟨rfl, rfl, rfl, rfl, le_refl _, List.prefix_append _ _, List.prefix_refl _⟩
    · intro c w o w2 h
      rw [cmdShell.execute] at h
      exact ihLoop c _ 0 w o w2 h
    · intro c prompt lastStatus w o w2 h
      cases hr : w.input w.reads with
      | fail e =>
        rw [loop_read_fail fuel c prompt lastStatus w e hr] at h
        obtain ⟨-, rfl⟩ := Prod.mk.inj (Option.some.inj h)
        exact later_turn w prompt
      | line l =>
        by_cases hl : l = ""
        · subst hl
          rw [loop_empty_line fuel c prompt lastStatus w hr] at h
          exact later_trans (later_turn w prompt) (ihLoop c prompt lastStatus _ o w2 h)
        · cases hargs : strings.Fields l with
          | nil =>
            rw [loop_no_field fuel c prompt lastStatus w l hr hl hargs] at h
            obtain ⟨-, rfl⟩ := Prod.mk.inj (Option.some.inj h)
            exact later_turn w prompt
          | cons a0 rest =>
            by_cases h0 : a0 = "exit"
            · rw [loop_exit fuel c prompt lastStatus w l a0 rest hr hargs h0] at h
              obtain ⟨-, rfl⟩ := Prod.mk.inj (Option.some.inj h)
              exact later_turn w prompt
            · rw [loop_dispatch fuel c prompt lastStatus w l a0 rest hr hargs h0] at h
              cases hx : executeProgram fuel { c with args := a0 :: rest }
                  { w with out := w.out ++ [prompt], reads := w.reads + 1 } with
              | none => simp [hx] at h
              | some r =>
                obtain ⟨o3, w3⟩ := r
                have hl3 := later_trans (later_turn w prompt) (ihExec _ _ o3 w3 hx)
                rw [hx] at h
                cases o3 with
                | fault msg =>
                  obtain ⟨-, rfl⟩ := Prod.mk.inj (Option.some.inj h)
                  exact hl3
                | ret status err =>
                  cases err with
                  | some e =>
                    obtain ⟨-, rfl⟩ := Prod.mk.inj (Option.some.inj h)
                    exact hl3
                  | none => exact later_trans hl3 (ihLoop c prompt status w3 o w2 h)
    · intro c w o w2 h
      rw [cmdSu.execute] at h
      exact ihExec _ w o w2 h

/-! ## Auxiliary facts on fuel -/

/-- More fuel does not change the result of the line loop of `cat`. -/
theorem cmdCat_lines_fuel (numberLine : Bool) (fuel : Nat) :
    ∀ (lineNumber : Nat) (w : World) (r : Outcome × World),
      cmdCat.lines numberLine fuel lineNumber w = some r →
      cmdCat.lines numberLine (fuel + 1) lineNumber w = some r := by
  induction fuel with
  | zero =>
    intro lineNumber w r h
    simp [cmdCat.lines] at h
  | succ fuel ih =>
    intro lineNumber w r h
    cases hr : w.input w.reads with
    | fail e =>
      rw [cmdCat_lines_fail numberLine fuel lineNumber w e hr] at h
      rw [cmdCat_lines_fail numberLine (fuel + 1) lineNumber w e hr]
      exact h
    | line a =>
      cases hw : w.outFail w.out.length with
      | some e =>
        have hstep : ∀ f, cmdCat.lines numberLine (f + 1) lineNumber w
            = some (.ret 0 (some e),
                (w.readLine.2.writeOut (catRecord numberLine lineNumber a)).2) := by
          intro f
          cases numberLine <;>
            simp [cmdCat.lines, World.readLine, hr, World.writeOut, hw, catRecord]
        rw [hstep fuel] at h
        rw [hstep (fuel + 1)]
        exact h
      | none =>
        rw [cmdCat_lines_line numberLine fuel lineNumber w a hr hw] at h
        rw [cmdCat_lines_line numberLine (fuel + 1) lineNumber w a hr hw]
        exact ih _ _ r h

/-- More fuel does not change the result of `cat`. -/
theorem cmdCat_execute_fuel (fuel : Nat) (c : commandContext) (w : World)
    (r : Outcome × World) (h : cmdCat.execute fuel c w = some r) :
    cmdCat.execute (fuel + 1) c w = some r := by
  unfold cmdCat.execute at h ⊢
  cases hargs : c.args with
  | nil =>
    simp only [hargs] at h ⊢
    exact h
  | cons prog rest =>
    simp only [hargs] at h ⊢
    split
    · rename_i hpos
      simp only [hpos, if_true] at h
      exact h
    · rename_i hpos
      simp only [hpos, if_false] at h
      exact cmdCat_lines_fuel _ fuel 1 w r h

/-- More fuel does not change a result: a run that returns with some fuel returns the same
outcome and world with one more unit. -/
theorem run_fuel_succ (fuel : Nat) :
    (∀ (c : commandContext) (w : World) (r : Outcome × World),
      executeProgram fuel c w = some r → executeProgram (fuel + 1) c w = some r)
    ∧ (∀ (c : commandContext) (w : World) (r : Outcome × World),
      cmdShell.execute fuel c w = some r → cmdShell.execute (fuel + 1) c w = some r)
    ∧ (∀ (c : commandContext) (prompt : String) (lastStatus : Nat) (w : World)
        (r : Outcome × World),
      cmdShell.loop fuel c prompt lastStatus w = some r →
      cmdShell.loop (fuel + 1) c prompt lastStatus w = some r)
    ∧ (∀ (c : commandContext) (w : World) (r : Outcome × World),
      cmdSu.execute fuel c w = some r → cmdSu.execute (fuel + 1) c w = some r) := by
  induction fuel with
  | zero =>
    refine ⟨?_, ?_, ?_, ?_⟩
    · intro c w r h
      simp [executeProgram] at h
    · intro c w r h
      simp [cmdShell.execute] at h
    · intro c prompt lastStatus w r h
      simp [cmdShell.loop] at h
    · intro c w r h
      simp [cmdSu.execute] at h
  | succ fuel ih =>
    obtain ⟨ihExec, ihShell, ihLoop, ihSu⟩ := ih
    refine ⟨?_, ?_, ?_, ?_⟩
    · intro c w r h
      rw [executeProgram] at h ⊢
      cases hargs : c.args with
      | nil =>
        simp only [hargs] at h ⊢
        exact h
      | cons name rest =>
        simp only [hargs] at h ⊢
        cases hc : commands name with
        | none =>
          simp only [hc] at h ⊢
          exact h
        | some cmd =>
          cases cmd with
          | cmdShell =>
            simp only [hc] at h ⊢
            exact ihShell c w r h
          | cmdCat =>
            simp only [hc] at h ⊢
            exact cmdCat_execute_fuel fuel c w r h
          | cmdSu =>
            simp only [hc] at h ⊢
            exact ihSu c w r h
          | cmdTrue =>
            simp only [hc] at h ⊢
            exact h
          | cmdFalse =>
            simp only [hc] at h ⊢
            exact h
          | cmdEcho =>
            simp only [hc] at h ⊢
            exact h
          | cmdIfconfig =>
            simp only [hc] at h ⊢
            exact h
          | cmdUname =>
            simp only [hc] at h ⊢
            exact h
    · intro c w r h
      rw [cmdShell.execute] at h ⊢
      exact ihLoop c _ 0 w r h
    · intro c prompt lastStatus w r h
      cases hr : w.input w.reads with
      | fail e =>
        rw [loop_read_fail fuel c prompt lastStatus w e hr] at h
        rw [loop_read_fail (fuel + 1) c prompt lastStatus w e hr]
        exact h
      | line l =>
        by_cases hl : l = ""
        · subst hl
          rw [loop_empty_line fuel c prompt lastStatus w hr] at h
          rw [loop_empty_line (fuel + 1) c prompt lastStatus w hr]
          exact ihLoop c prompt lastStatus _ r h
        · cases hargs : strings.Fields l with
          | nil =>
            rw [loop_no_field fuel c prompt lastStatus w l hr hl hargs] at h
            rw [loop_no_field (fuel + 1) c prompt lastStatus w l hr hl hargs]
            exact h
          | cons a0 rest =>
            by_cases h0 : a0 = "exit"
            · rw [loop_exit fuel c prompt lastStatus w l a0 rest hr hargs h0] at h
              rw [loop_exit (fuel + 1) c prompt lastStatus w l a0 rest hr hargs h0]
              exact h
            · rw [loop_dispatch fuel c prompt lastStatus w l a0 rest hr hargs h0] at h
              rw [loop_dispatch (fuel + 1) c prompt lastStatus w l a0 rest hr hargs h0]
              cases hx : executeProgram fuel { c with args := a0 :: rest }
                  { w with out := w.out ++ [prompt], reads := w.reads + 1 } with
              | none => simp [hx] at h
              | some r3 =>
                rw [hx] at h
                rw [ihExec _ _ r3 hx]
                obtain ⟨o3, w3⟩ := r3
                cases o3 with
                | fault msg => exact h
                | ret status err =>
                  cases err with
                  | some e => exact h
                  | none => exact ihLoop c prompt status w3 r h
    · intro c w r h
      rw [cmdSu.execute] at h ⊢
      exact ihExec _ w r h

/-- A result of the shell stays the result with any larger fuel. -/
theorem shell_fuel_le (fuel fuel2 : Nat) (hle : fuel ≤ fuel2) (c : commandContext) (w : World)
    (r : Outcome × World) (h : cmdShell.execute fuel c w = some r) :
    cmdShell.execute fuel2 c w = some r := by
  induction fuel2 with
  | zero =>
    have h0 : fuel = 0 := Nat.le_zero.mp hle
    subst h0
    exact h
  | succ g ih =>
    by_cases hg : fuel ≤ g
    · exact (run_fuel_succ g).2.1 c w r (ih hg)
    · have he : fuel = g + 1 := by omega
      subst he
      exact h

/-! ## Auxiliary facts on nesting depth -/

/-- Lines read over two adjacent ranges of reads add up. -/
theorem linesRead_add (input : Nat → ReadResult) (lo mid hi : Nat) (h1 : lo ≤ mid)
    (h2 : mid ≤ hi) :
    linesRead input lo hi = linesRead input lo mid + linesRead input mid hi := by
  unfold linesRead
  have hsplit : List.range' lo (hi - lo)
      = List.range' lo (mid - lo) ++ List.range' mid (hi - mid) := by
    have h := List.range'_append lo (mid - lo) (hi - mid) 1
    rw [show lo + 1 * (mid - lo) = mid by omega,
      show hi - mid + (mid - lo) = hi - lo by omega] at h
    exact h.symm
  rw [hsplit, List.filter_append, List.length_append]

/-- A read that yields a line counts as one line read. -/
theorem linesRead_line (input : Nat → ReadResult) (k : Nat) (l : String)
    (h : input k = .line l) : linesRead input k (k + 1) = 1 := by
  simp [linesRead, h]

/-- Lines read from a read that yields a line on. -/
theorem linesRead_step (input : Nat → ReadResult) (k hi : Nat) (l : String)
    (h : input k = .line l) (hk : k + 1 ≤ hi) :
    linesRead input k hi = 1 + linesRead input (k + 1) hi := by
  rw [linesRead_add input k (k + 1) hi (Nat.le_succ _) hk, linesRead_line input k l h]

/-- A shorter range of reads yields no more lines. -/
theorem linesRead_mono (input : Nat → ReadResult) (lo lo2 hi2 hi : Nat) (h1 : lo ≤ lo2)
    (h2 : lo2 ≤ hi2) (h3 : hi2 ≤ hi) : linesRead input lo2 hi2 ≤ linesRead input lo hi := by
  rw [linesRead_add input lo lo2 hi h1 (le_trans h2 h3), linesRead_add input lo2 hi2 hi h2 h3]
  omega

/-- No more lines are read than reads are made. -/
theorem linesRead_le (input : Nat → ReadResult) (lo hi : Nat) :
    linesRead input lo hi ≤ hi - lo := by
  unfold linesRead
  exact le_trans (List.length_filter_le _ _) (by simp)

/-- Depth of a loop turn on a failed read. -/
theorem loopDepth_read_fail (fuel : Nat) (c : commandContext) (prompt : String)
    (lastStatus : Nat) (w : World) (e : GoError) (hread : w.input w.reads = .fail e) :
    loopDepth (fuel + 1) c prompt lastStatus w = 0 := by
  simp [loopDepth, hread]

/-- Depth of a loop turn on the empty line. -/
theorem loopDepth_empty_line (fuel : Nat) (c : commandContext) (prompt : String)
    (lastStatus : Nat) (w : World) (hread : w.input w.reads = .line "") :
    loopDepth (fuel + 1) c prompt lastStatus w
      = loopDepth fuel c prompt lastStatus
          { w with out := w.out ++ [prompt], reads := w.reads + 1 } := by
  rw [loopDepth]
  simp [hread]

/-- Depth of a loop turn on a non-empty line without a field. -/
theorem loopDepth_no_field (fuel : Nat) (c : commandContext) (prompt : String)
    (lastStatus : Nat) (w : World) (line : String)
    (hread : w.input w.reads = .line line) (hne : line ≠ "")
    (hf : strings.Fields line = []) :
    loopDepth (fuel + 1) c prompt lastStatus w = 0 := by
  have hlen : ¬ line.length = 0 := by
    intro h0
    exact hne (String.ext (List.length_eq_zero.mp h0))
  simp [loopDepth, hread, hlen, hf]

/-- Depth of a loop turn on an `exit` line. -/
theorem loopDepth_exit (fuel : Nat) (c : commandContext) (prompt : String)
    (lastStatus : Nat) (w : World) (line a0 : String) (rest : List String)
    (hread : w.input w.reads = .line line) (hargs : strings.Fields line = a0 :: rest)
    (h0 : a0 = "exit") :
    loopDepth (fuel + 1) c prompt lastStatus w = 0 := by
  have hlen : ¬ line.length = 0 := Fields_ne_nil_length line (by simp [hargs])
  simp [loopDepth, hread, hlen, hargs, h0]

/-- Depth of a loop turn that dispatches a command. -/
theorem loopDepth_dispatch (fuel : Nat) (c : commandContext) (prompt : String)
    (lastStatus : Nat) (w : World) (line a0 : String) (rest : List String)
    (hread : w.input w.reads = .line line) (hargs : strings.Fields line = a0 :: rest)
    (h0 : a0 ≠ "exit") :
    loopDepth (fuel + 1) c prompt lastStatus w
      = match executeProgram fuel { c with args := a0 :: rest }
            { w with out := w.out ++ [prompt], reads := w.reads + 1 } with
        | some (.ret status none, w2) =>
          max (dispatchDepth fuel { c with args := a0 :: rest }
              { w with out := w.out ++ [prompt], reads := w.reads + 1 })
            (loopDepth fuel c prompt status w2)
        | _ =>
          dispatchDepth fuel { c with args := a0 :: rest }
            { w with out := w.out ++ [prompt], reads := w.reads + 1 } := by
  have hlen : ¬ line.length = 0 := Fields_ne_nil_length line (by simp [hargs])
  rw [loopDepth]
  simp only [hread, hlen, hargs, h0, if_false]

/-- The nesting depth a run reaches is at most the number of lines it reads: below a shell and
its loop, the lines read; for a dispatched command, one more, the line that named it. -/
theorem depth_le_linesRead (fuel : Nat) :
    (∀ (c : commandContext) (w : World) (o : Outcome) (w2 : World),
      executeProgram fuel c w = some (o, w2) →
      dispatchDepth fuel c w ≤ 1 + linesRead w.input w.reads w2.reads)
    ∧ (∀ (c : commandContext) (w : World) (o : Outcome) (w2 : World),
      cmdShell.execute fuel c w = some (o, w2) →
      shellDepth fuel c w ≤ linesRead w.input w.reads w2.reads)
    ∧ (∀ (c : commandContext) (prompt : String) (lastStatus : Nat) (w : World) (o : Outcome)
        (w2 : World),
      cmdShell.loop fuel c prompt lastStatus w = some (o, w2) →
      loopDepth fuel c prompt lastStatus w ≤ linesRead w.input w.reads w2.reads)
    ∧ (∀ (c : commandContext) (w : World) (o : Outcome) (w2 : World),
      cmdSu.execute fuel c w = some (o, w2) →
      suDepth fuel c w ≤ 1 + linesRead w.input w.reads w2.reads) := by
  induction fuel with
  | zero =>
    refine ⟨?_, ?_, ?_, ?_⟩
    · intro c w o w2 _
      simp [dispatchDepth]
    · intro c w o w2 _
      simp [shellDepth]
    · intro c prompt lastStatus w o w2 _
      simp [loopDepth]
    · intro c w o w2 _
      simp [suDepth]
  | succ fuel ih =>
    obtain ⟨ihExec, ihShell, ihLoop, ihSu⟩ := ih
    refine ⟨?_, ?_, ?_, ?_⟩
    · intro c w o w2 h
      rw [executeProgram] at h
      rw [dispatchDepth]
      cases hargs : c.args with
      | nil => simp
      | cons name rest =>
        simp only [hargs] at h ⊢
        cases hc : commands name with
        | none => simp
        | some cmd =>
          cases cmd with
          | cmdShell =>
            simp only [hc] at h ⊢
            have := ihShell c w o w2 h
            omega
          | cmdSu =>
            simp only [hc] at h ⊢
            exact ihSu c w o w2 h
          | cmdTrue => simp
          | cmdFalse => simp
          | cmdEcho => simp
          | cmdCat => simp
          | cmdIfconfig => simp
          | cmdUname => simp
    · intro c w o w2 h
      rw [cmdShell.execute] at h
      rw [shellDepth]
      exact ihLoop c _ 0 w o w2 h
    · intro c prompt lastStatus w o w2 h
      have hlat : w.later w2 := (later_run (fuel + 1)).2.2.1 c prompt lastStatus w o w2 h
      cases hr : w.input w.reads with
      | fail e =>
        rw [loopDepth_read_fail fuel c prompt lastStatus w e hr]
        exact Nat.zero_le _
      | line l =>
        by_cases hl : l = ""
        · subst hl
          rw [loop_empty_line fuel c prompt lastStatus w hr] at h
          rw [loopDepth_empty_line fuel c prompt lastStatus w hr]
          have h1 := ihLoop c prompt lastStatus _ o w2 h
          have hlat1 := (later_run fuel).2.2.1 c prompt lastStatus _ o w2 h
          have hr1 : w.reads + 1 ≤ w2.reads := hlat1.2.2.2.2.1
          simp only at h1
          exact le_trans h1
            (linesRead_mono w.input w.reads (w.reads + 1) w2.reads w2.reads (Nat.le_succ _)
              hr1 (le_refl _))
        · cases hargs : strings.Fields l with
          | nil =>
            rw [loopDepth_no_field fuel c prompt lastStatus w l hr hl hargs]
            exact Nat.zero_le _
          | cons a0 rest =>
            by_cases h0 : a0 = "exit"
            · rw [loopDepth_exit fuel c prompt lastStatus w l a0 rest hr hargs h0]
              exact Nat.zero_le _
            · rw [loop_dispatch fuel c prompt lastStatus w l a0 rest hr hargs h0] at h
              rw [loopDepth_dispatch fuel c prompt lastStatus w l a0 rest hr hargs h0]
              cases hx : executeProgram fuel { c with args := a0 :: rest }
                  { w with out := w.out ++ [prompt], reads := w.reads + 1 } with
              | none => simp [hx] at h
              | some r3 =>
                obtain ⟨o3, w3⟩ := r3
                have hd := ihExec _ _ o3 w3 hx
                have hlat3 := (later_run fuel).1 _ _ o3 w3 hx
                have hr3 : w.reads + 1 ≤ w3.reads := hlat3.2.2.2.2.1
                have hin3 : w3.input = w.input := hlat3.1
                simp only at hd
                rw [hx] at h
                have hturn : ∀ hi, w3.reads ≤ hi →
                    dispatchDepth fuel { c with args := a0 :: rest }
                      { w with out := w.out ++ [prompt], reads := w.reads + 1 }
                      ≤ linesRead w.input w.reads hi := by
                  intro hi hhi
                  rw [linesRead_step w.input w.reads hi l hr (by omega)]
                  have := linesRead_mono w.input (w.reads + 1) (w.reads + 1) w3.reads hi
                    (le_refl _) hr3 hhi
                  omega
                cases o3 with
                | fault msg =>
                  obtain ⟨-, rfl⟩ := Prod.mk.inj (Option.some.inj h)
                  exact hturn _ (le_refl _)
                | ret status err =>
                  cases err with
                  | some e =>
                    obtain ⟨-, rfl⟩ := Prod.mk.inj (Option.some.inj h)
                    exact hturn _ (le_refl _)
                  | none =>
                    have hlat2 := (later_run fuel).2.2.1 c prompt status w3 o w2 h
                    have hr2 : w3.reads ≤ w2.reads := hlat2.2.2.2.2.1
                    have hrest := ihLoop c prompt status w3 o w2 h
                    rw [hin3] at hrest
                    have hmono := linesRead_mono w.input w.reads w3.reads w2.reads w2.reads
                      (by omega) hr2 (le_refl _)
                    exact max_le (hturn _ hr2) (le_trans hrest hmono)
    · intro c w o w2 h
      rw [cmdSu.execute] at h
      rw [suDepth]
      exact ihExec _ w o w2 h

/-- The bound is reached: three lines `sh` nest three shells below the first one. -/
theorem shellDepth_three_shells :
    shellDepth 17 ⟨["sh"], true, "alice"⟩ (World.start ["sh", "sh", "sh"]) = 3
    ∧ linesRead (World.start ["sh", "sh", "sh"]).input 0 3 = 3 := by
  decide

/-! ## Claims C19 and C20 -/

/-- C19: when the input fails on every read from the `n`-th on and none of its lines is made of
whitespace only (empty lines are allowed), the shell returns from every context, however `sh`,
`su` and `cat` are nested in the input: each loop turn and each nested shell makes at least one
read, so five units of fuel, the longest chain of calls from one read to the next, per
remaining read and two more suffice; the shell then returns one status and error, without a
panic, for every such fuel, having made at least one read on the same input, and the depth of
shells nested below it never exceeds the number of lines it has read. -/
theorem C19_shell_terminates (context : commandContext) (w : World) (n : Nat)
    (hlines : ∀ k l, w.input k = .line l → l = "" ∨ ∃ c ∈ l.data, unicode.IsSpace c = false)
    (hend : ∀ k, n ≤ k → ∃ e, w.input k = .fail e) :
    ∃ status err w2,
      (∀ fuel, 5 * (n - w.reads) + 2 ≤ fuel →
        cmdShell.execute fuel context w = some (.ret status err, w2))
      ∧ w.reads < w2.reads ∧ w.later w2
      ∧ (∀ fuel, 5 * (n - w.reads) + 2 ≤ fuel →
        shellDepth fuel context w ≤ linesRead w.input w.reads w2.reads) := by
  obtain ⟨s, e, w2, h1, h2, -⟩ :=
    loop_returns n w.input hlines hend (n - w.reads) w rfl (le_refl _) context
      (5 * (n - w.reads) + 1) (getPrompt context) 0 (le_refl _)
  have hrun : cmdShell.execute (5 * (n - w.reads) + 2) context w = some (.ret s e, w2) := by
    rw [cmdShell.execute]
    exact h1
  have hall : ∀ fuel, 5 * (n - w.reads) + 2 ≤ fuel →
      cmdShell.execute fuel context w = some (.ret s e, w2) :=
    fun fuel hfuel => shell_fuel_le _ fuel hfuel context w _ hrun
  exact ⟨s, e, w2, hall, h2, (later_run _).2.1 context w _ w2 hrun,
    fun fuel hfuel => (depth_le_linesRead fuel).2.1 context w _ w2 (hall fuel hfuel)⟩

/-- C19 on a session that nests `su`, `sh` and `cat` and runs into the end of the input. -/
theorem C19_shell_terminates_witness :
    ∃ status err w2,
      (∀ fuel,
        5 * (7 - (World.start ["su", "sh", "", "cat -n", "x", "uname", "exit 3"]).reads) + 2
          ≤ fuel →
        cmdShell.execute fuel ⟨["sh"], true, "alice"⟩
            (World.start ["su", "sh", "", "cat -n", "x", "uname", "exit 3"])
          = some (.ret status err, w2))
      ∧ (World.start ["su", "sh", "", "cat -n", "x", "uname", "exit 3"]).reads < w2.reads
      ∧ (World.start ["su", "sh", "", "cat -n", "x", "uname", "exit 3"]).later w2
      ∧ (∀ fuel,
        5 * (7 - (World.start ["su", "sh", "", "cat -n", "x", "uname", "exit 3"]).reads) + 2
          ≤ fuel →
        shellDepth fuel ⟨["sh"], true, "alice"⟩
            (World.start ["su", "sh", "", "cat -n", "x", "uname", "exit 3"])
          ≤ linesRead (World.start ["su", "sh", "", "cat -n", "x", "uname", "exit 3"]).input
              (World.start ["su", "sh", "", "cat -n", "x", "uname", "exit 3"]).reads
              w2.reads) :=
  C19_shell_terminates ⟨["sh"], true, "alice"⟩
    (World.start ["su", "sh", "", "cat -n", "x", "uname", "exit 3"]) 7
    (fun k l h =>
      (by decide : ∀ l ∈ ["su", "sh", "", "cat -n", "x", "uname", "exit 3"],
        l = "" ∨ ∃ c ∈ l.data, unicode.IsSpace c = false) l (stdinOf_mem _ k l h))
    (fun k hk => stdinOf_fails _ k hk)

/-- C20: a nested shell started by `su` or `sh` leaves the enclosing shell as it was: when the
nested shell returns a status with a nil error, as it does when it ends through `exit`, the
enclosing loop goes on with its own context and prompt, with the nested status as last status,
in the world the nested shell left, which is a later state of the same input and sinks; with a
pseudo-terminal, user "alice" and the lines `su`, `exit 5`, `exit` the output sink receives
exactly "$ # $ " and the outer shell returns status 5 with a nil error. -/
theorem C20_nested_shell_frame (context : commandContext) (prompt : String) (lastStatus : Nat)
    (w : World) :
    (∀ fuel line rest status w2, w.input w.reads = .line line →
      strings.Fields line = "su" :: rest →
      cmdShell.execute fuel
          { args := ["sh"], pty := context.pty, user := suUser ("su" :: rest) }
          { w with out := w.out ++ [prompt], reads := w.reads + 1 }
        = some (.ret status none, w2) →
      cmdShell.loop (fuel + 4) context prompt lastStatus w
          = cmdShell.loop (fuel + 3) context prompt status w2
        ∧ w.later w2)
    ∧ (∀ fuel line rest status w2, w.input w.reads = .line line →
      strings.Fields line = "sh" :: rest →
      cmdShell.execute fuel { context with args := "sh" :: rest }
          { w with out := w.out ++ [prompt], reads := w.reads + 1 }
        = some (.ret status none, w2) →
      cmdShell.loop (fuel + 2) context prompt lastStatus w
          = cmdShell.loop (fuel + 1) context prompt status w2
        ∧ w.later w2)
    ∧ (w.input w.reads = .line "su" → w.input (w.reads + 1) = .line "exit 5" →
      w.input (w.reads + 2) = .line "exit" →
      ∀ fuel, cmdShell.execute (fuel + 7) ⟨["sh"], true, "alice"⟩ w
        = some (.ret 5 none,
            { w with out := w.out ++ ["$ ", "# ", "$ "], reads := w.reads + 3 }))
    ∧ (∀ fuel, cmdShell.execute (fuel + 7) ⟨["sh"], true, "alice"⟩
        (World.start ["su", "exit 5", "exit"])
      = some (.ret 5 none,
          { World.start ["su", "exit 5", "exit"] with out := ["$ ", "# ", "$ "], reads := 3 }))
    ∧ sinkBytes ["$ ", "# ", "$ "] = "$ # $ " := by
  have hsh : commands "sh" = some .cmdShell := by decide
  have hsu : commands "su" = some .cmdSu := by decide
  have hsuStep : ∀ (c : commandContext) (p : String) (last : Nat) (w0 : World) fuel line rest
      status w2, w0.input w0.reads = .line line → strings.Fields line = "su" :: rest →
      cmdShell.execute fuel { args := ["sh"], pty := c.pty, user := suUser ("su" :: rest) }
          { w0 with out := w0.out ++ [p], reads := w0.reads + 1 }
        = some (.ret status none, w2) →
      cmdShell.loop (fuel + 4) c p last w0 = cmdShell.loop (fuel + 3) c p status w2 := by
    intro c p last w0 fuel line rest status w2 hread hargs hnested
    rw [loop_dispatch (fuel + 3) c p last w0 line "su" rest hread hargs (by decide)]
    have hrun : executeProgram (fuel + 3) { c with args := "su" :: rest }
        { w0 with out := w0.out ++ [p], reads := w0.reads + 1 }
        = some (.ret status none, w2) := by
      rw [executeProgram]
      simp only [hsu]
      rw [cmdSu.execute, executeProgram]
      simp only [shellProgram, hsh]
      rw [← hnested]
      cases rest <;> rfl
    rw [hrun]
  refine ⟨?_, ?_, ?_, fun _ => rfl, by decide⟩
  · intro fuel line rest status w2 hread hargs hnested
    exact ⟨hsuStep context prompt lastStatus w fuel line rest status w2 hread hargs hnested,
      later_trans (later_turn w prompt) ((later_run fuel).2.1 _ _ _ w2 hnested)⟩
  · intro fuel line rest status w2 hread hargs hnested
    have hlater : w.later w2 :=
      later_trans (later_turn w prompt) ((later_run fuel).2.1 _ _ _ w2 hnested)
    refine ⟨?_, hlater⟩
    rw [loop_dispatch (fuel + 1) context prompt lastStatus w line "sh" rest hread hargs
      (by decide)]
    have hrun : executeProgram (fuel + 1) { context with args := "sh" :: rest }
        { w with out := w.out ++ [prompt], reads := w.reads + 1 }
        = some (.ret status none, w2) := by
      rw [executeProgram]
      simp only [hsh]
      exact hnested
    rw [hrun]
  · intro h1 h2 h3 fuel
    have hnested : cmdShell.execute (fuel + 2)
        { args := ["sh"], pty := true, user := suUser ("su" :: []) }
        { w with out := w.out ++ ["$ "], reads := w.reads + 1 }
        = some (.ret 5 none,
            { w with out := w.out ++ ["$ "] ++ ["# "], reads := w.reads + 1 + 1 }) := by
      have hparse : parseExitStatus ["exit", "5"] 0 = .ret 5 none := by decide
      rw [cmdShell.execute]
      show cmdShell.loop (fuel + 1) _ "# " 0 _ = _
      rw [loop_exit fuel _ "# " 0
        { w with out := w.out ++ ["$ "], reads := w.reads + 1 } "exit 5" "exit" ["5"] h2
        (by decide) rfl, hparse]
    rw [cmdShell.execute]
    show cmdShell.loop (fuel + 2 + 4) ⟨["sh"], true, "alice"⟩ "$ " 0 w = _
    rw [hsuStep ⟨["sh"], true, "alice"⟩ "$ " 0 w (fuel + 2) "su" [] 5 _ h1 (by decide) hnested]
    rw [loop_exit (fuel + 4) _ "$ " 5
      { w with out := w.out ++ ["$ "] ++ ["# "], reads := w.reads + 1 + 1 } "exit" "exit" []
      h3 (by decide) rfl]
    simp [parseExitStatus]

/-- C20 on the session `su`, `exit 5`, `exit` from the start of the input. -/
theorem C20_nested_shell_frame_witness :
    ∀ fuel, cmdShell.execute (fuel + 7) ⟨["sh"], true, "alice"⟩
        (World.start ["su", "exit 5", "exit"])
      = some (.ret 5 none,
          { World.start ["su", "exit 5", "exit"] with
            out := (World.start ["su", "exit 5", "exit"]).out ++ ["$ ", "# ", "$ "],
            reads := (World.start ["su", "exit 5", "exit"]).reads + 3 }) :=
  (C20_nested_shell_frame ⟨["sh"], true, "alice"⟩ "$ " 0
    (World.start ["su", "exit 5", "exit"])).2.2.1 rfl rfl rfl

end SSHHoneypot
